import Mathlib

/-!
Shallow embedding of `src/model/layers/Attention.py`.

Tensors are modelled as nested lists of real numbers in row-major order:
a rank-2 tensor of shape (T, D) is a list of T rows, each a list of D
scalars; a rank-3 tensor of shape (B, T, D) is a list of B such matrices,
and so on.  Floating-point arithmetic is idealised as real arithmetic.
`torch.Tensor.view` is modelled faithfully as flattening the data in
row-major order and re-chunking it, which is exactly what `view` does on a
contiguous tensor.  `nn.Dropout` is modelled in evaluation mode (disabled),
where it is the identity.
-/

noncomputable section

abbrev Vec := List ℝ
abbrev Mat := List (List ℝ)
abbrev Tensor3 := List Mat
abbrev Tensor4 := List Tensor3

/-- Dot product of two rows. -/
def dot (a b : Vec) : ℝ := (List.zipWith (· * ·) a b).sum

/-- Parameters of an `nn.Linear` layer: `weight` has one row per output
feature, each row as long as the input feature width; `bias` has one entry
per output feature. -/
structure Linear where
  weight : Mat
  bias : Vec

instance : Inhabited Linear := ⟨⟨[], []⟩⟩

/-- Embedding of `nn.Linear` applied to one feature vector: `W x + b`. -/
def applyLinear (L : Linear) (v : Vec) : Vec :=
  List.zipWith (fun w b => dot w v + b) L.weight L.bias

/-- Embedding of `nn.Linear` applied to every row (timestep) of a matrix. -/
def linearMap (L : Linear) (X : Mat) : Mat := X.map (applyLinear L)

/-- Embedding of `nn.Linear` applied over the last axis of a rank-3 tensor. -/
def linearMap3 (L : Linear) (X : Tensor3) : Tensor3 := X.map (linearMap L)

/-- Length of the first row of a nested list (the size of axis 1). -/
def headLen (l : List (List α)) : ℕ := (l.head?.getD []).length

/-- Embedding of `Tensor.transpose (-2, -1)` of a matrix (columns become rows). -/
def transposeM (m : Mat) : Mat :=
  (List.range (headLen m)).map (fun j => m.map (fun r => r.getD j 0))

/-- Embedding of `torch.matmul A (B.transpose (-2, -1))`: entry (i, j) is the dot
product of row i of `A` with row j of `B`. -/
def matmulT (A B : Mat) : Mat := A.map (fun ar => B.map (fun br => dot ar br))

/-- Plain `torch.matmul W V`: entry (i, j) is the dot product of row i of
`W` with column j of `V`. -/
def matmulR (W V : Mat) : Mat :=
  W.map (fun wr => (transposeM V).map (fun col => dot wr col))

/-- Embedding of `F.softmax` along the last axis, on one row. -/
def softmaxRow (r : Vec) : Vec :=
  r.map (fun s => Real.exp s / (r.map Real.exp).sum)

/-- Softmax along the last axis of a matrix. -/
def softmaxM (m : Mat) : Mat := m.map softmaxRow

/-- Softmax along the last axis of a rank-3 tensor. -/
def softmax3 (x : Tensor3) : Tensor3 := x.map softmaxM

/-- Softmax along the last axis of a rank-4 tensor. -/
def softmax4 (x : Tensor4) : Tensor4 := x.map softmax3

/-- Divide every entry of a matrix by a scalar. -/
def scaleM (c : ℝ) (m : Mat) : Mat := m.map (fun r => r.map (fun s => s / c))

/-- Divide every entry of a rank-3 tensor by a scalar. -/
def scale3 (c : ℝ) (x : Tensor3) : Tensor3 := x.map (scaleM c)

/-- Divide every entry of a rank-4 tensor by a scalar. -/
def scale4 (c : ℝ) (x : Tensor4) : Tensor4 := x.map (scale3 c)

/-- One entry of `Tensor.masked_fill (mask == 0, -1e9)`. -/
def fillEntry (s m : ℝ) : ℝ := if m = 0 then -1e9 else s

/-- Embedding of `masked_fill (mask == 0, -1e9)` on matrices. -/
def maskedFillM (s m : Mat) : Mat :=
  List.zipWith (fun sr mr => List.zipWith fillEntry sr mr) s m

/-- Embedding of `masked_fill (mask == 0, -1e9)` on rank-3 tensors. -/
def maskedFill3 (s m : Tensor3) : Tensor3 := List.zipWith maskedFillM s m

/-- Embedding of `masked_fill (mask == 0, -1e9)` on rank-4 tensors. -/
def maskedFill4 (s m : Tensor4) : Tensor4 := List.zipWith maskedFill3 s m

/-- Elementwise sum of two matrices. -/
def addM (a b : Mat) : Mat := List.zipWith (fun ra rb => List.zipWith (· + ·) ra rb) a b

/-- Elementwise sum of two rank-3 tensors. -/
def add3 (a b : Tensor3) : Tensor3 := List.zipWith addM a b

/-- Divide every entry of a rank-3 tensor by two (`t / 2`). -/
def halve3 (x : Tensor3) : Tensor3 := x.map (fun m => m.map (fun r => r.map (fun a => a / 2)))

/-- Embedding of `nn.Dropout` in evaluation mode (dropout disabled): the identity. -/
def dropout (x : α) : α := x

/-- Split a list into consecutive chunks of `n` elements (row-major
regrouping; the incomplete tail, if any, is dropped, which never happens
on the exact reshapes performed by the source). -/
def chunks (n : ℕ) (l : List α) : List (List α) :=
  (List.range (l.length / n)).map (fun i => (l.drop (i * n)).take n)

/-- Row-major flattening of a rank-3 tensor. -/
def flatten3 (x : Tensor3) : Vec := (x.map List.flatten).flatten

/-- Row-major flattening of a rank-4 tensor. -/
def flatten4 (x : Tensor4) : Vec := (x.map flatten3).flatten

/-- Embedding of `Tensor.view (a, -1, c)` on a rank-3 tensor: flatten in row-major
order, cut into `a` equal outer blocks, and cut each block into rows of
`c` scalars. -/
def view3 (a c : ℕ) (x : Tensor3) : Tensor3 :=
  (chunks ((flatten3 x).length / a) (flatten3 x)).map (chunks c)

/-- Embedding of `Tensor.view (b, t, d)` of a flat data vector (the leading size `b` is
determined by the data length, as the source always passes consistent
sizes). -/
def view3full (t d : ℕ) (flat : Vec) : Tensor3 :=
  (chunks (t * d) flat).map (chunks d)

/-- Embedding of `Tensor.view (b, h, t, m)` on a rank-3 tensor, row-major. -/
def view4 (h t m : ℕ) (x : Tensor3) : Tensor4 :=
  (chunks (h * (t * m)) (flatten3 x)).map (fun c => (chunks (t * m) c).map (chunks m))

/-! ### MultiHeadAttention (source lines 144-190) -/

structure MultiHeadAttention where
  num_heads : ℕ
  d_model : ℕ
  query_linear : Linear
  key_linear : Linear
  value_linear : Linear
  output_linear : Linear

instance : Inhabited MultiHeadAttention :=
  ⟨⟨0, 0, default, default, default, default⟩⟩

/-- Embedding of `d_model // num_heads`. -/
def MultiHeadAttention.headDim (p : MultiHeadAttention) : ℕ :=
  p.d_model / p.num_heads

/-- Projection followed by `view (batch_size * num_heads, -1, d_model // num_heads)`;
`bs` is `query.size(0)` in the source. -/
def MultiHeadAttention.split (p : MultiHeadAttention) (bs : ℕ) (L : Linear)
    (t : Tensor3) : Tensor3 :=
  view3 (bs * p.num_heads) p.headDim (linearMap3 L t)

/-- Embedding of `torch.bmm(query, key.transpose(1, 2)) / (d_model // num_heads) ** 0.5`. -/
def MultiHeadAttention.scaledScores (p : MultiHeadAttention)
    (query key : Tensor3) : Tensor3 :=
  scale3 (Real.sqrt (p.headDim : ℝ))
    (List.zipWith matmulT (p.split query.length p.query_linear query)
      (p.split query.length p.key_linear key))

/-- Scores after the optional `masked_fill (mask == 0, -1e9)`. -/
def MultiHeadAttention.maskedScores (p : MultiHeadAttention)
    (query key : Tensor3) (mask : Option Tensor3) : Tensor3 :=
  match mask with
  | none => p.scaledScores query key
  | some m => maskedFill3 (p.scaledScores query key) m

/-- Embedding of `weights = F.softmax(scores, dim=-1)`. -/
def MultiHeadAttention.weights (p : MultiHeadAttention)
    (query key : Tensor3) (mask : Option Tensor3) : Tensor3 :=
  softmax3 (p.maskedScores query key mask)

/-- Embedding of `MultiHeadAttention.forward` (source lines 157-190). -/
def MultiHeadAttention.forward (p : MultiHeadAttention)
    (query key value : Tensor3) (mask : Option Tensor3) : Tensor3 :=
  let v := p.split query.length p.value_linear value
  let attended := List.zipWith matmulR (p.weights query key mask) v
  linearMap3 p.output_linear (view3 query.length p.d_model attended)

/-! ### SelfAttention (source lines 68-113) -/

structure SelfAttention where
  hidden_dim : ℕ
  num_heads : ℕ
  linear_q : Linear
  linear_k : Linear
  linear_v : Linear
  linear_out : Linear

/-- Embedding of `hidden_dim // num_heads`. -/
def SelfAttention.head_dim (p : SelfAttention) : ℕ :=
  p.hidden_dim / p.num_heads

/-- The query projection of `SelfAttention.forward` (source lines 87-90):
`linear_q(x) + linear_q(bias)` when a bias input is supplied, otherwise
`linear_q(x)`. -/
def SelfAttention.qproj (p : SelfAttention) (x : Tensor3)
    (bias : Option Tensor3) : Tensor3 :=
  match bias with
  | some b => add3 (linearMap3 p.linear_q x) (linearMap3 p.linear_q b)
  | none => linearMap3 p.linear_q x

/-- Embedding of `matmul(q, k.transpose(-2, -1)) / sqrt(head_dim)` with the head axis
explicit: q and k are viewed as `(batch, num_heads, seq_len, head_dim)`. -/
def SelfAttention.scores (p : SelfAttention) (x : Tensor3)
    (bias : Option Tensor3) : Tensor4 :=
  scale4 (Real.sqrt (p.head_dim : ℝ))
    (List.zipWith (fun qb kb => List.zipWith matmulT qb kb)
      (view4 p.num_heads (headLen x) p.head_dim (p.qproj x bias))
      (view4 p.num_heads (headLen x) p.head_dim (linearMap3 p.linear_k x)))

/-- Scores after the optional `masked_fill (mask == 0, -1e9)`. -/
def SelfAttention.maskedScores (p : SelfAttention) (x : Tensor3)
    (bias : Option Tensor3) (mask : Option Tensor4) : Tensor4 :=
  match mask with
  | none => p.scores x bias
  | some m => maskedFill4 (p.scores x bias) m

/-- Embedding of `attn_weights = dropout(F.softmax(scores, dim=-1))`. -/
def SelfAttention.attnWeights (p : SelfAttention) (x : Tensor3)
    (bias : Option Tensor3) (mask : Option Tensor4) : Tensor4 :=
  dropout (softmax4 (p.maskedScores x bias mask))

/-- Embedding of `SelfAttention.forward` (source lines 84-113); returns the attended
output and the attention weights. -/
def SelfAttention.forward (p : SelfAttention) (x : Tensor3)
    (bias : Option Tensor3) (mask : Option Tensor4) : Tensor3 × Tensor4 :=
  let v := view4 p.num_heads (headLen x) p.head_dim (linearMap3 p.linear_v x)
  let attn_output := List.zipWith (fun wb vb => List.zipWith matmulR wb vb)
    (p.attnWeights x bias mask) v
  let attn_output := view3full (headLen x) p.hidden_dim (flatten4 attn_output)
  (dropout (linearMap3 p.linear_out attn_output), p.attnWeights x bias mask)

/-! ### HierarchicalTemporalAttention (source lines 10-66) -/

structure HierarchicalTemporalAttention where
  hidden_dim : ℕ
  num_heads : ℕ
  window_sizes : List ℕ
  num_levels : ℕ
  local_attentions : List MultiHeadAttention
  global_attention : MultiHeadAttention
  linear_out : Linear

/-- Embedding of `F.pad(x, (0, 0, pad, pad), 'constant', 0)` on one batch item: `pad`
zero rows of width `d` on each end of the time axis. -/
def padTime (pad d : ℕ) (m : Mat) : Mat :=
  List.replicate pad (List.replicate d 0) ++ m ++ List.replicate pad (List.replicate d 0)

/-- Embedding of `padded.unfold(1, w, 1).permute(0, 1, 3, 2)` on one batch item: the
list of all width-`w` sliding windows of rows. -/
def windowsOf (w : ℕ) (m : Mat) : List Mat :=
  (List.range (m.length + 1 - w)).map (fun t => (m.drop t).take w)

/-- Column-wise mean of a matrix (`torch.mean(dim=-2)` over the window
axis). -/
def meanRows (m : Mat) : Vec :=
  (transposeM m).map (fun col => col.sum / (m.length : ℝ))

/-- Embedding of `torch.cat(_, dim=-1)` of two rank-3 tensors. -/
def cat2 (a b : Tensor3) : Tensor3 :=
  List.zipWith (fun ma mb => List.zipWith (fun ra rb => ra ++ rb) ma mb) a b

/-- Embedding of `torch.cat(_, dim=-1)` of a list of rank-3 tensors. -/
def catAll : List Tensor3 → Tensor3
  | [] => []
  | [t] => t
  | t :: rest => cat2 t (catAll rest)

/-- One hierarchical level of `HierarchicalTemporalAttention.forward`
(source lines 39-55): pad, unfold into `(B*T, w, D)` windows, run the
level's local attention, view back to `(B, T, w, D)` and average over the
window axis. -/
def HierarchicalTemporalAttention.levelOut (p : HierarchicalTemporalAttention)
    (x : Tensor3) (level : ℕ) : Tensor3 :=
  let T := headLen x
  let D := ((x.head?.getD []).head?.getD []).length
  let window_size := p.window_sizes.getD level 0
  let pad_size := (window_size - 1) / 2
  let padded_x := x.map (padTime pad_size D)
  let unfolded_x := (padded_x.map (windowsOf window_size)).flatten
  let level_out := (p.local_attentions.getD level default).forward
    unfolded_x unfolded_x unfolded_x none
  (chunks T level_out).map (fun bt => bt.map meanRows)

/-- Embedding of `HierarchicalTemporalAttention.forward` (source lines 31-66).  The
`bias` and `mask` arguments are accepted but never used by the source. -/
def HierarchicalTemporalAttention.forward (p : HierarchicalTemporalAttention)
    (x : Tensor3) (bias : Option Tensor3) (mask : Option Tensor3) :
    Tensor3 × Option Tensor3 :=
  let local_features := (List.range p.num_levels).map (p.levelOut x)
  let global_out := p.global_attention.forward x x x none
  let combined := catAll (local_features ++ [global_out])
  (dropout (linearMap3 p.linear_out combined), none)

/-! ### LayerNorm and the encoder (source lines 116-142) -/

/-- Parameters of `nn.LayerNorm` over the feature axis. -/
structure LayerNorm where
  gamma : Vec
  beta : Vec

/-- Embedding of `nn.LayerNorm` on one feature vector, with the default
`eps = 1e-5`. -/
def applyLN (ln : LayerNorm) (r : Vec) : Vec :=
  let mu := r.sum / (r.length : ℝ)
  let varr := (r.map (fun a => (a - mu) ^ 2)).sum / (r.length : ℝ)
  List.zipWith (· + ·)
    (List.zipWith (· * ·) (r.map (fun a => (a - mu) / Real.sqrt (varr + 1e-5))) ln.gamma)
    ln.beta

/-- Embedding of `nn.LayerNorm` over the last axis of a rank-3 tensor. -/
def lnMap3 (ln : LayerNorm) (x : Tensor3) : Tensor3 :=
  x.map (fun m => m.map (applyLN ln))

/-- The error function, used by the exact `F.gelu`. -/
def erfReal (x : ℝ) : ℝ :=
  (2 / Real.sqrt Real.pi) * ∫ t in (0 : ℝ)..x, Real.exp (-(t ^ 2))

/-- Exact `F.gelu`. -/
def gelu (x : ℝ) : ℝ := x * (1 + erfReal (x / Real.sqrt 2)) / 2

/-- Embedding of `F.gelu` over every entry of a rank-3 tensor. -/
def geluMap3 (x : Tensor3) : Tensor3 :=
  x.map (fun m => m.map (fun r => r.map gelu))

/-- One `nn.ModuleDict` layer of `TransformerEncoder`. -/
structure EncoderLayer where
  temporal_attention : HierarchicalTemporalAttention
  linear1 : Linear
  linear2 : Linear
  norm1 : LayerNorm
  norm2 : LayerNorm

structure TransformerEncoder where
  layers : List EncoderLayer

/-- Embedding of `TransformerEncoder.forward` (source lines 131-142). -/
def TransformerEncoder.forward (p : TransformerEncoder) (x : Tensor3)
    (bias : Option Tensor3) (mask : Option Tensor3) : Tensor3 × Option Tensor3 :=
  (p.layers.foldl (fun x layer =>
    let attn_out := (layer.temporal_attention.forward x bias mask).1
    let x := lnMap3 layer.norm1 (add3 x (dropout attn_out))
    let ffn_out := linearMap3 layer.linear2 (geluMap3 (linearMap3 layer.linear1 x))
    lnMap3 layer.norm2 (add3 x (dropout ffn_out))) x, none)

/-! ### TransformerDecoderLayer / TransformerDecoder (source lines 192-263) -/

structure TransformerDecoderLayer where
  self_attention : MultiHeadAttention
  self_attention_norm : LayerNorm
  enc_attention : MultiHeadAttention
  enc_attention_norm : LayerNorm
  ff_linear1 : Linear
  ff_linear2 : Linear
  feed_forward_norm : LayerNorm

instance : Inhabited TransformerDecoderLayer :=
  ⟨⟨default, ⟨[], []⟩, default, ⟨[], []⟩, default, default, ⟨[], []⟩⟩⟩

/-- The `feed_forward` `nn.Sequential` of a decoder layer on one feature
vector: expand, ReLU, (dropout), contract, (dropout). -/
def feedForward (l1 l2 : Linear) (r : Vec) : Vec :=
  dropout (applyLinear l2 (dropout ((applyLinear l1 r).map (fun a => max a 0))))

/-- The decoder layer feed-forward network over a rank-3 tensor. -/
def ffMap3 (l1 l2 : Linear) (x : Tensor3) : Tensor3 :=
  x.map (fun m => m.map (feedForward l1 l2))

/-- Embedding of `TransformerDecoderLayer.forward` (source lines 214-228). -/
def TransformerDecoderLayer.forward (p : TransformerDecoderLayer)
    (tgt memory : Tensor3) (memo2 : Option Tensor3)
    (tgt_mask memory_mask : Option Tensor3) : Tensor3 :=
  let tgt2 := lnMap3 p.self_attention_norm
    (add3 tgt (dropout (p.self_attention.forward tgt tgt tgt tgt_mask)))
  let tgt3 := lnMap3 p.enc_attention_norm
    (add3 tgt2 (dropout (p.enc_attention.forward tgt2 memory memory memory_mask)))
  let tgt3 := match memo2 with
    | none => tgt3
    | some m2 =>
      let tgt3_5 := lnMap3 p.enc_attention_norm
        (add3 tgt2 (dropout (p.enc_attention.forward tgt2 m2 m2 memory_mask)))
      halve3 (add3 tgt3 tgt3_5)
  lnMap3 p.feed_forward_norm (add3 tgt3 (dropout (ffMap3 p.ff_linear1 p.ff_linear2 tgt3)))

structure TransformerDecoder where
  num_layers : ℕ
  layers : List TransformerDecoderLayer
  norm_att1 : LayerNorm
  norm_att2 : LayerNorm
  norm_att3 : LayerNorm
  norm_att : LayerNorm

/-- Embedding of `TransformerDecoder.forward` (source lines 247-263). -/
def TransformerDecoder.forward (p : TransformerDecoder)
    (tgt memory : Tensor3) (memo2 : Option Tensor3) (embedding : Option Tensor3)
    (tgt_mask memory_mask : Option Tensor3) : Tensor3 :=
  (List.range p.num_layers).foldl (fun tgt i =>
    let norm_tgt := match embedding with
      | some e => lnMap3 p.norm_att (add3 tgt e)
      | none => lnMap3 p.norm_att tgt
    let norm_memo1 := lnMap3 p.norm_att memory
    let norm_memo2 := match memo2 with
      | some m2 => lnMap3 p.norm_att m2
      | none => norm_memo1
    (p.layers.getD i default).forward norm_tgt norm_memo1 (some norm_memo2)
      tgt_mask memory_mask) tgt

/-! ### Well-formedness (shape) predicates -/

/-- A matrix of shape `(t, d)`. -/
abbrev MatWF (t d : ℕ) (m : Mat) : Prop :=
  m.length = t ∧ ∀ r ∈ m, r.length = d

/-- A rank-3 tensor of shape `(b, t, d)`. -/
abbrev T3WF (b t d : ℕ) (x : Tensor3) : Prop :=
  x.length = b ∧ ∀ m ∈ x, MatWF t d m

/-- A rank-4 tensor of shape `(a, b, t, d)`. -/
abbrev T4WF (a b t d : ℕ) (x : Tensor4) : Prop :=
  x.length = a ∧ ∀ u ∈ x, T3WF b t d u

/-- An `nn.Linear (din, dout)` layer with consistent parameter shapes. -/
abbrev LinearWF (din dout : ℕ) (L : Linear) : Prop :=
  L.weight.length = dout ∧ (∀ r ∈ L.weight, r.length = din) ∧ L.bias.length = dout

/-- An optional rank-3 tensor that, when present, has shape `(b, t, d)`. -/
abbrev OptT3WF (b t d : ℕ) : Option Tensor3 → Prop
  | none => True
  | some m => T3WF b t d m

/-- An optional rank-4 tensor that, when present, has shape `(a, b, t, d)`. -/
abbrev OptT4WF (a b t d : ℕ) : Option Tensor4 → Prop
  | none => True
  | some m => T4WF a b t d m

/-- A `MultiHeadAttention (num_heads, d_model)` module with consistent
parameter shapes. -/
abbrev MHAWF (p : MultiHeadAttention) : Prop :=
  LinearWF p.d_model p.d_model p.query_linear ∧
  LinearWF p.d_model p.d_model p.key_linear ∧
  LinearWF p.d_model p.d_model p.value_linear ∧
  LinearWF p.d_model p.d_model p.output_linear ∧
  0 < p.num_heads ∧ 0 < p.d_model ∧ p.num_heads ∣ p.d_model

/-- A `SelfAttention (hidden_dim, num_heads)` module with consistent
parameter shapes. -/
abbrev SAWF (p : SelfAttention) : Prop :=
  LinearWF p.hidden_dim p.hidden_dim p.linear_q ∧
  LinearWF p.hidden_dim p.hidden_dim p.linear_k ∧
  LinearWF p.hidden_dim p.hidden_dim p.linear_v ∧
  LinearWF p.hidden_dim p.hidden_dim p.linear_out ∧
  0 < p.num_heads ∧ 0 < p.hidden_dim ∧ p.num_heads ∣ p.hidden_dim

/-- An `nn.LayerNorm d` with consistent parameter shapes. -/
abbrev LNWF (d : ℕ) (ln : LayerNorm) : Prop :=
  ln.gamma.length = d ∧ ln.beta.length = d

/-- A `HierarchicalTemporalAttention` module with consistent parameter
shapes; the configured window sizes must be odd (as the defaults 3, 5, 7
are). -/
abbrev HTAWF (p : HierarchicalTemporalAttention) : Prop :=
  p.local_attentions.length = p.num_levels ∧
  p.num_levels ≤ p.window_sizes.length ∧
  (∀ w ∈ p.window_sizes.take p.num_levels, Odd w) ∧
  (∀ a ∈ p.local_attentions,
    a.num_heads = p.num_heads ∧ a.d_model = p.hidden_dim ∧ MHAWF a) ∧
  p.global_attention.num_heads = p.num_heads ∧
  p.global_attention.d_model = p.hidden_dim ∧
  MHAWF p.global_attention ∧
  LinearWF (p.hidden_dim * (p.num_levels + 1)) p.hidden_dim p.linear_out

/-- One encoder layer with consistent parameter shapes for width `d`. -/
abbrev EncLayerWF (d : ℕ) (l : EncoderLayer) : Prop :=
  l.temporal_attention.hidden_dim = d ∧ HTAWF l.temporal_attention ∧
  LinearWF d (4 * d) l.linear1 ∧ LinearWF (4 * d) d l.linear2 ∧
  LNWF d l.norm1 ∧ LNWF d l.norm2

/-- A `TransformerEncoder` with consistent parameter shapes for width `d`. -/
abbrev EncWF (d : ℕ) (p : TransformerEncoder) : Prop :=
  ∀ l ∈ p.layers, EncLayerWF d l

/-- A `TransformerDecoderLayer (num_heads, d_model, d_ff)` with consistent
parameter shapes. -/
abbrev DecLayerWF (h d dff : ℕ) (p : TransformerDecoderLayer) : Prop :=
  p.self_attention.num_heads = h ∧ p.self_attention.d_model = d ∧
  MHAWF p.self_attention ∧ LNWF d p.self_attention_norm ∧
  p.enc_attention.num_heads = h ∧ p.enc_attention.d_model = d ∧
  MHAWF p.enc_attention ∧ LNWF d p.enc_attention_norm ∧
  LinearWF d dff p.ff_linear1 ∧ LinearWF dff d p.ff_linear2 ∧
  LNWF d p.feed_forward_norm

/-- A `TransformerDecoder` with consistent parameter shapes. -/
abbrev DecWF (h d dff : ℕ) (p : TransformerDecoder) : Prop :=
  p.num_layers = p.layers.length ∧ (∀ l ∈ p.layers, DecLayerWF h d dff l) ∧
  LNWF d p.norm_att

/-- Entry `(b, i, j)` of a rank-3 tensor. -/
def ent3 (x : Tensor3) (b i j : ℕ) : ℝ := ((x.getD b []).getD i []).getD j 0

/-- Entry `(a, b, i, j)` of a rank-4 tensor. -/
def ent4 (x : Tensor4) (a b i j : ℕ) : ℝ := ent3 (x.getD a []) b i j

/-! ### Specification-side reference definitions for claim C1

The claim describes the head reshape of `MultiHeadAttention.forward` as a
split of the *feature axis*: head `h` of batch item `b` at time `t` holds
features `[h*M, (h+1)*M)` of timestep `t` (`M = d_model / num_heads`).
`specMHA_claimed` renders that algorithm literally.  The code instead
reinterprets each batch item's flattened `(T*D)` block in row-major order,
so head `h` holds the contiguous scalars `[h*T*M, (h+1)*T*M)` of that
block; `specMHA_amended` renders the algorithm with this corrected
reshape. -/

/-- Head split as the claim states it: head `h` of batch item `b` at time
`t` holds features `[h*M, (h+1)*M)` of timestep `t`; heads are folded into
the batch axis. -/
def claimedSplitHeads (H M : ℕ) (x : Tensor3) : Tensor3 :=
  (x.map (fun mat =>
    (List.range H).map (fun h => mat.map (fun row => (row.drop (h * M)).take M)))).flatten

/-- Inverse of `claimedSplitHeads`: row `t` of batch item `b` is the
concatenation over heads of row `t` of each head. -/
def claimedMerge (H : ℕ) (att : Tensor3) : Tensor3 :=
  (chunks H att).map (fun heads =>
    (List.range (headLen heads)).map (fun t =>
      (heads.map (fun hm => hm.getD t [])).flatten))

/-- The multi-head attention algorithm exactly as claim C1 words it, with
the feature-axis head split. -/
def specMHA_claimed (p : MultiHeadAttention) (query key value : Tensor3)
    (mask : Option Tensor3) : Tensor3 :=
  let M := p.headDim
  let q := claimedSplitHeads p.num_heads M (linearMap3 p.query_linear query)
  let k := claimedSplitHeads p.num_heads M (linearMap3 p.key_linear key)
  let v := claimedSplitHeads p.num_heads M (linearMap3 p.value_linear value)
  let scores := scale3 (Real.sqrt (M : ℝ)) (List.zipWith matmulT q k)
  let scores := match mask with
    | none => scores
    | some m => maskedFill3 scores m
  linearMap3 p.output_linear
    (claimedMerge p.num_heads (List.zipWith matmulR (softmax3 scores) v))

/-- The head split the code actually performs, described per batch item:
the `(T, D)` block of batch item `b` is flattened row-major and head `h`
is the contiguous scalars `[h*t*M, (h+1)*t*M)`, cut into rows of `M`. -/
def perBatchSplit (t M : ℕ) (mat : Mat) : List Mat :=
  (chunks (t * M) mat.flatten).map (chunks M)

/-- Head split of the amended claim: per-batch row-major regrouping, heads
folded into the batch axis. -/
def amendedSplitHeads (t M : ℕ) (x : Tensor3) : Tensor3 :=
  (x.map (perBatchSplit t M)).flatten

/-- Inverse of `amendedSplitHeads`: each group of `num_heads` consecutive
attended heads is flattened row-major and cut back into rows of
`d_model`. -/
def perBatchMerge (H D : ℕ) (att : Tensor3) : Tensor3 :=
  (chunks H att).map (fun heads => chunks D (heads.map List.flatten).flatten)

/-- The multi-head attention algorithm of claim C1 with the head reshape
corrected to the row-major regrouping the code performs. -/
def specMHA_amended (p : MultiHeadAttention) (query key value : Tensor3)
    (mask : Option Tensor3) : Tensor3 :=
  let M := p.headDim
  let q := amendedSplitHeads (headLen query) M (linearMap3 p.query_linear query)
  let k := amendedSplitHeads (headLen key) M (linearMap3 p.key_linear key)
  let v := amendedSplitHeads (headLen value) M (linearMap3 p.value_linear value)
  let scores := scale3 (Real.sqrt (M : ℝ)) (List.zipWith matmulT q k)
  let scores := match mask with
    | none => scores
    | some m => maskedFill3 scores m
  linearMap3 p.output_linear
    (perBatchMerge p.num_heads p.d_model (List.zipWith matmulR (softmax3 scores) v))

/-! ### Basic lemmas about `chunks` -/

theorem chunks_nil {α : Type*} (n : ℕ) : chunks n ([] : List α) = [] := by
  simp [chunks]

theorem length_chunks {α : Type*} (n : ℕ) (l : List α) :
    (chunks n l).length = l.length / n := by
  simp [chunks]

theorem length_mem_chunks {α : Type*} {n : ℕ} (hn : 0 < n) {l : List α} {c : List α}
    (hc : c ∈ chunks n l) : c.length = n := by
  rcases List.mem_map.1 hc with ⟨i, hi, rfl⟩
  have hilt : i < l.length / n := List.mem_range.1 hi
  have hle : i * n + n ≤ l.length := by
    have h1 : (i + 1) * n ≤ l.length := by
      calc (i + 1) * n ≤ l.length / n * n :=
            Nat.mul_le_mul_right n (Nat.succ_le_of_lt hilt)
      _ ≤ l.length := Nat.div_mul_le_self _ _
    rwa [Nat.succ_mul] at h1
  simp only [List.length_take, List.length_drop]
  exact Nat.min_eq_left (by omega)

theorem chunks_cons {α : Type*} {n : ℕ} (hn : 0 < n) {l : List α} (h : n ≤ l.length) :
    chunks n l = l.take n :: chunks n (l.drop n) := by
  unfold chunks
  rw [Nat.div_eq_sub_div hn h, List.range_succ_eq_map, List.map_cons, List.map_map]
  congr 1
  · simp
  · rw [List.length_drop]
    apply List.map_congr_left
    intro i _
    simp only [Function.comp_apply, List.drop_drop, Nat.succ_mul]
    congr 2
    omega

theorem chunks_self {α : Type*} {n : ℕ} (hn : 0 < n) {l : List α} (h : l.length = n) :
    chunks n l = [l] := by
  unfold chunks
  rw [h, Nat.div_self hn]
  have : l.take n = l := List.take_of_length_le (le_of_eq h)
  simp [List.range_succ, this]

theorem chunks_append_of_blocks {α : Type*} {n k : ℕ} (hn : 0 < n) :
    ∀ {l₁ : List α} (l₂ : List α), l₁.length = n * k →
      chunks n (l₁ ++ l₂) = chunks n l₁ ++ chunks n l₂ := by
  induction k with
  | zero =>
    intro l₁ l₂ h
    have : l₁ = [] := List.eq_nil_of_length_eq_zero (by omega)
    simp [this, chunks_nil]
  | succ k ih =>
    intro l₁ l₂ h
    have hlen : n ≤ l₁.length := by
      rw [h, Nat.mul_succ]; omega
    have hlen2 : n ≤ (l₁ ++ l₂).length := by
      rw [List.length_append]; omega
    rw [chunks_cons hn hlen2, chunks_cons hn hlen,
      List.take_append_of_le_length hlen, List.drop_append_of_le_length hlen,
      List.cons_append]
    congr 1
    exact ih l₂ (by rw [List.length_drop, h, Nat.mul_succ]; omega)

theorem chunks_append_of_dvd {α : Type*} {n : ℕ} (hn : 0 < n) {l₁ l₂ : List α}
    (h : n ∣ l₁.length) : chunks n (l₁ ++ l₂) = chunks n l₁ ++ chunks n l₂ := by
  rcases h with ⟨k, hk⟩
  exact chunks_append_of_blocks hn l₂ hk

theorem chunks_flatten {α : Type*} {n : ℕ} (hn : 0 < n) :
    ∀ {L : List (List α)}, (∀ l ∈ L, n ∣ l.length) →
      chunks n L.flatten = (L.map (chunks n)).flatten
  | [], _ => by simp [chunks_nil]
  | l :: L, h => by
    rw [List.flatten_cons, chunks_append_of_dvd hn (h l (by simp)),
      List.map_cons, List.flatten_cons,
      chunks_flatten hn (fun x hx => h x (by simp [hx]))]

theorem flatten_chunks {α : Type*} {n k : ℕ} (hn : 0 < n) :
    ∀ {l : List α}, l.length = n * k → (chunks n l).flatten = l := by
  induction k with
  | zero =>
    intro l h
    have : l = [] := List.eq_nil_of_length_eq_zero (by omega)
    simp [this, chunks_nil]
  | succ k ih =>
    intro l h
    have hlen : n ≤ l.length := by rw [h, Nat.mul_succ]; omega
    rw [chunks_cons hn hlen, List.flatten_cons,
      ih (by rw [List.length_drop, h, Nat.mul_succ]; omega),
      List.take_append_drop]

theorem flatten_chunks_of_dvd {α : Type*} {n : ℕ} (hn : 0 < n) {l : List α}
    (h : n ∣ l.length) : (chunks n l).flatten = l := by
  rcases h with ⟨k, hk⟩
  exact flatten_chunks hn hk

theorem flatten_map_singleton {α : Type*} : ∀ (L : List α), (L.map (fun a => [a])).flatten = L
  | [] => by simp
  | a :: L => by simp [flatten_map_singleton L]

theorem chunks_of_blocks {α : Type*} {n : ℕ} (hn : 0 < n) {L : List (List α)}
    (h : ∀ l ∈ L, l.length = n) : chunks n L.flatten = L := by
  rw [chunks_flatten hn (fun l hl => (h l hl) ▸ dvd_refl n)]
  have : L.map (chunks n) = L.map (fun l => [l]) :=
    List.map_congr_left (fun l hl => chunks_self hn (h l hl))
  rw [this, flatten_map_singleton]

theorem flatten_length_of_blocks {α : Type*} {n : ℕ} {L : List (List α)}
    (h : ∀ l ∈ L, l.length = n) : L.flatten.length = L.length * n := by
  have : L.map List.length = List.replicate (L.map List.length).length n := by
    apply List.eq_replicate_of_mem
    intro a ha
    rcases List.mem_map.1 ha with ⟨l, hl, rfl⟩
    exact h l hl
  rw [List.length_flatten, this, List.sum_replicate, smul_eq_mul, List.length_map]

theorem chunks_mul_flatten {α : Type*} {n k : ℕ} (hn : 0 < n) (hk : 0 < k) :
    ∀ (N : ℕ) (L : List (List α)), L.length ≤ N → (∀ l ∈ L, l.length = n) →
      chunks (k * n) L.flatten = (chunks k L).map List.flatten := by
  intro N
  induction N with
  | zero =>
    intro L hN h
    have : L = [] := List.eq_nil_of_length_eq_zero (by omega)
    simp [this, chunks_nil]
  | succ N ih =>
    intro L hN h
    by_cases hkL : k ≤ L.length
    · have htake : ∀ l ∈ L.take k, l.length = n := fun l hl => h l (List.mem_of_mem_take hl)
      have hdrop : ∀ l ∈ L.drop k, l.length = n := fun l hl => h l (List.mem_of_mem_drop hl)
      have htk : (L.take k).flatten.length = k * n := by
        rw [flatten_length_of_blocks htake, List.length_take, Nat.min_eq_left hkL]
      have hsplit : L.flatten = (L.take k).flatten ++ (L.drop k).flatten := by
        conv_lhs => rw [← List.take_append_drop k L]
        rw [List.flatten_append]
      rw [hsplit, chunks_append_of_dvd (by positivity) (htk ▸ dvd_refl (k * n)),
        chunks_self (by positivity) htk, chunks_cons hk hkL, List.map_cons,
        List.singleton_append]
      congr 1
      exact ih (L.drop k) (by rw [List.length_drop]; omega) hdrop
    · push_neg at hkL
      have h1 : chunks k L = [] := by
        unfold chunks
        rw [Nat.div_eq_of_lt hkL]
        simp
      have h2 : chunks (k * n) L.flatten = [] := by
        unfold chunks
        rw [flatten_length_of_blocks h, Nat.div_eq_of_lt
          ((Nat.mul_lt_mul_right hn).mpr hkL)]
        simp
      simp [h1, h2]

theorem chunks_map {α β : Type*} (n : ℕ) (f : α → β) (l : List α) :
    chunks n (l.map f) = (chunks n l).map (List.map f) := by
  unfold chunks
  rw [List.length_map, List.map_map]
  apply List.map_congr_left
  intro i _
  simp [Function.comp_apply, List.map_take, List.map_drop]

theorem flatten_map_chunks {α : Type*} {n k : ℕ} (hn : 0 < n) (hk : 0 < k)
    {l : List α} (h : k * n ∣ l.length) :
    ((chunks (k * n) l).map (chunks n)).flatten = chunks n l := by
  conv_rhs => rw [← flatten_chunks_of_dvd (by positivity : 0 < k * n) h]
  rw [chunks_flatten hn]
  intro c hc
  rw [length_mem_chunks (by positivity) hc]
  exact dvd_mul_left n k

theorem chunks_mul_flatten_blocks {α : Type*} {n k : ℕ} (hn : 0 < n) (hk : 0 < k)
    {L : List (List α)} (h : ∀ l ∈ L, l.length = n) :
    chunks (k * n) L.flatten = (chunks k L).map List.flatten :=
  chunks_mul_flatten hn hk L.length L le_rfl h

theorem zipWith_flatten_of_blocks {α β γ : Type*} {n : ℕ} (f : α → β → γ) :
    ∀ (A : List (List α)) (B : List (List β)),
      (∀ l ∈ A, l.length = n) → (∀ l ∈ B, l.length = n) →
      List.zipWith f A.flatten B.flatten = (List.zipWith (List.zipWith f) A B).flatten
  | [], _, _, _ => by simp
  | _ :: _, [], _, _ => by simp
  | a :: A, b :: B, hA, hB => by
    rw [List.flatten_cons, List.flatten_cons,
      List.zipWith_append _ _ _ _ _ (by rw [hA a (by simp), hB b (by simp)]),
      List.zipWith_cons_cons, List.flatten_cons,
      zipWith_flatten_of_blocks f A B (fun l hl => hA l (by simp [hl]))
        (fun l hl => hB l (by simp [hl]))]

/-! ### Shape lemmas -/

theorem MatWF.flatten_length {t d : ℕ} {m : Mat} (h : MatWF t d m) :
    m.flatten.length = t * d := by
  rw [flatten_length_of_blocks h.2, h.1]

theorem blocks_of_T3WF {b t d : ℕ} {x : Tensor3} (h : T3WF b t d x) :
    ∀ l ∈ x.map List.flatten, l.length = t * d := by
  intro l hl
  rcases List.mem_map.1 hl with ⟨m, hm, rfl⟩
  exact (h.2 m hm).flatten_length

theorem flatten3_length {b t d : ℕ} {x : Tensor3} (h : T3WF b t d x) :
    (flatten3 x).length = b * (t * d) := by
  unfold flatten3
  rw [flatten_length_of_blocks (blocks_of_T3WF h), List.length_map, h.1]

theorem applyLinear_length {din dout : ℕ} {L : Linear} (h : LinearWF din dout L)
    (v : Vec) : (applyLinear L v).length = dout := by
  simp [applyLinear, List.length_zipWith, h.1, h.2.2]

theorem linearMap_WF {t d din dout : ℕ} {L : Linear} {m : Mat}
    (hL : LinearWF din dout L) (hm : MatWF t d m) : MatWF t dout (linearMap L m) := by
  constructor
  · simp [linearMap, hm.1]
  · intro r hr
    rcases List.mem_map.1 hr with ⟨v, _, rfl⟩
    exact applyLinear_length hL v

theorem linearMap3_WF {b t d din dout : ℕ} {L : Linear} {x : Tensor3}
    (hL : LinearWF din dout L) (hx : T3WF b t d x) :
    T3WF b t dout (linearMap3 L x) := by
  constructor
  · simp [linearMap3, hx.1]
  · intro m hm
    rcases List.mem_map.1 hm with ⟨m0, hm0, rfl⟩
    exact linearMap_WF hL (hx.2 m0 hm0)

theorem chunks_T3WF {a t m : ℕ} (hm : 0 < m) (ht : 0 < t) {l : Vec}
    (hl : l.length = a * (t * m)) :
    T3WF a t m ((chunks (t * m) l).map (chunks m)) := by
  constructor
  · rw [List.length_map, length_chunks, hl,
      Nat.mul_div_cancel _ (by positivity)]
  · intro mm hmm
    rcases List.mem_map.1 hmm with ⟨c, hc, rfl⟩
    have hclen : c.length = t * m := length_mem_chunks (by positivity) hc
    constructor
    · rw [length_chunks, hclen, Nat.mul_div_cancel _ hm]
    · intro r hr
      exact length_mem_chunks hm hr

/-! ### Reshape equivalence lemmas -/

theorem view3_eq_amendedSplit {B T D H M : ℕ} {x : Tensor3} (hx : T3WF B T D x)
    (hD : D = H * M) (hH : 0 < H) (hM : 0 < M) :
    view3 (B * H) M x = amendedSplitHeads T M x := by
  rcases Nat.eq_zero_or_pos B with hB | hB
  · subst hB
    have hx0 : x = [] := List.eq_nil_of_length_eq_zero hx.1
    subst hx0
    simp [view3, amendedSplitHeads, flatten3, chunks_nil]
  rcases Nat.eq_zero_or_pos T with hT | hT
  · subst hT
    have hflat : flatten3 x = [] := List.eq_nil_of_length_eq_zero
      (by rw [flatten3_length hx]; simp)
    have hsplit : amendedSplitHeads 0 M x = [] := by
      unfold amendedSplitHeads
      rw [List.flatten_eq_nil_iff]
      intro l hl
      rcases List.mem_map.1 hl with ⟨m, hm, rfl⟩
      simp [perBatchSplit, chunks]
    rw [hsplit]
    unfold view3
    rw [hflat]
    simp [chunks_nil]
  have hsize : (flatten3 x).length / (B * H) = T * M := by
    rw [flatten3_length hx, hD]
    have harith : B * (T * (H * M)) = (B * H) * (T * M) := by ring
    rw [harith, Nat.mul_div_cancel_left _ (by positivity)]
  have hdvd : ∀ l ∈ x.map List.flatten, T * M ∣ l.length := by
    intro l hl
    rw [blocks_of_T3WF hx l hl, hD]
    exact ⟨H, by ring⟩
  unfold view3 amendedSplitHeads perBatchSplit
  rw [hsize]
  unfold flatten3
  rw [chunks_flatten (by positivity) hdvd, List.map_flatten, List.map_map, List.map_map]
  rfl

theorem view3_eq_perBatchMerge {B T M H D : ℕ} {att : Tensor3}
    (hatt : T3WF (B * H) T M att) (hD : D = H * M) (hH : 0 < H) (hM : 0 < M)
    (hT : 0 < T) (hB : 0 < B) :
    view3 B D att = perBatchMerge H D att := by
  have hblocks : ∀ l ∈ att.map List.flatten, l.length = T * M :=
    blocks_of_T3WF hatt
  have hsize : (flatten3 att).length / B = H * (T * M) := by
    rw [flatten3_length hatt]
    have harith : B * H * (T * M) = B * (H * (T * M)) := by ring
    rw [harith, Nat.mul_div_cancel_left _ hB]
  unfold view3 perBatchMerge
  rw [hsize]
  unfold flatten3
  rw [chunks_mul_flatten_blocks (by positivity) hH hblocks, chunks_map,
    List.map_map, List.map_map]
  rfl

theorem view4_flatten_eq_view3 {B T D H M : ℕ} {x : Tensor3} (hx : T3WF B T D x)
    (hD : D = H * M) (hH : 0 < H) (hM : 0 < M) (hT : 0 < T) :
    (view4 H T M x).flatten = view3 (B * H) M x := by
  rcases Nat.eq_zero_or_pos B with hB | hB
  · subst hB
    have hx0 : x = [] := List.eq_nil_of_length_eq_zero hx.1
    subst hx0
    simp [view4, view3, flatten3, chunks_nil]
  have hsize : (flatten3 x).length / (B * H) = T * M := by
    rw [flatten3_length hx, hD]
    have harith : B * (T * (H * M)) = (B * H) * (T * M) := by ring
    rw [harith, Nat.mul_div_cancel_left _ (by positivity)]
  have hdvd : H * (T * M) ∣ (flatten3 x).length := by
    rw [flatten3_length hx, hD]
    exact ⟨B, by ring⟩
  unfold view4 view3
  have hcomp : (fun c : Vec => (chunks (T * M) c).map (chunks M)) =
      (List.map (chunks M)) ∘ (chunks (T * M)) := rfl
  rw [hsize, hcomp, ← List.map_map, ← List.map_flatten,
    flatten_map_chunks (by positivity) hH hdvd]

theorem view4_T4WF {B T D H M : ℕ} {x : Tensor3} (hx : T3WF B T D x)
    (hD : D = H * M) (hH : 0 < H) (hM : 0 < M) (hT : 0 < T) :
    T4WF B H T M (view4 H T M x) := by
  constructor
  · unfold view4
    rw [List.length_map, length_chunks, flatten3_length hx, hD]
    have harith : B * (T * (H * M)) = B * (H * (T * M)) := by ring
    rw [harith, Nat.mul_div_cancel _ (by positivity)]
  · intro u hu
    unfold view4 at hu
    rcases List.mem_map.1 hu with ⟨c, hc, rfl⟩
    have hclen : c.length = H * (T * M) := length_mem_chunks (by positivity) hc
    exact chunks_T3WF hM hT hclen

theorem mem_zipWith {α β γ : Type*} {f : α → β → γ} {l₁ : List α} {l₂ : List β}
    {c : γ} (hc : c ∈ List.zipWith f l₁ l₂) : ∃ a ∈ l₁, ∃ b ∈ l₂, c = f a b := by
  rcases List.mem_iff_getElem.1 hc with ⟨i, hi, rfl⟩
  have hi1 : i < l₁.length := by
    rw [List.length_zipWith] at hi
    omega
  have hi2 : i < l₂.length := by
    rw [List.length_zipWith] at hi
    omega
  exact ⟨l₁[i], List.getElem_mem hi1, l₂[i], List.getElem_mem hi2,
    by rw [List.getElem_zipWith]⟩

theorem headLen_of_MatWF {t d : ℕ} {m : Mat} (h : MatWF t d m) (ht : 0 < t) :
    headLen m = d := by
  rcases m with _ | ⟨r, rest⟩
  · exact absurd h.1 (by simp; omega)
  · exact h.2 r (by simp)

theorem transposeM_length (m : Mat) : (transposeM m).length = headLen m := by
  simp [transposeM]

theorem matmulT_WF {tq tk : ℕ} {A B : Mat} (hA : A.length = tq)
    (hB : B.length = tk) : MatWF tq tk (matmulT A B) := by
  constructor
  · simp [matmulT, hA]
  · intro r hr
    rcases List.mem_map.1 hr with ⟨ar, _, rfl⟩
    simp [hB]

theorem matmulR_WF {tq tk m : ℕ} {W V : Mat} (hW : W.length = tq)
    (hV : MatWF tk m V) (htk : 0 < tk) : MatWF tq m (matmulR W V) := by
  constructor
  · simp [matmulR, hW]
  · intro r hr
    rcases List.mem_map.1 hr with ⟨wr, _, rfl⟩
    simp [transposeM_length, headLen_of_MatWF hV htk]

theorem softmaxM_WF {t d : ℕ} {m : Mat} (h : MatWF t d m) :
    MatWF t d (softmaxM m) := by
  constructor
  · simp [softmaxM, h.1]
  · intro r hr
    rcases List.mem_map.1 hr with ⟨r0, hr0, rfl⟩
    simp [softmaxRow, h.2 r0 hr0]

theorem softmax3_WF {b t d : ℕ} {x : Tensor3} (h : T3WF b t d x) :
    T3WF b t d (softmax3 x) := by
  constructor
  · simp [softmax3, h.1]
  · intro m hm
    rcases List.mem_map.1 hm with ⟨m0, hm0, rfl⟩
    exact softmaxM_WF (h.2 m0 hm0)

theorem softmax4_WF {a b t d : ℕ} {x : Tensor4} (h : T4WF a b t d x) :
    T4WF a b t d (softmax4 x) := by
  constructor
  · simp [softmax4, h.1]
  · intro u hu
    rcases List.mem_map.1 hu with ⟨u0, hu0, rfl⟩
    exact softmax3_WF (h.2 u0 hu0)

theorem scaleM_WF {t d : ℕ} {c : ℝ} {m : Mat} (h : MatWF t d m) :
    MatWF t d (scaleM c m) := by
  constructor
  · simp [scaleM, h.1]
  · intro r hr
    rcases List.mem_map.1 hr with ⟨r0, hr0, rfl⟩
    simp [h.2 r0 hr0]

theorem scale3_WF {b t d : ℕ} {c : ℝ} {x : Tensor3} (h : T3WF b t d x) :
    T3WF b t d (scale3 c x) := by
  constructor
  · simp [scale3, h.1]
  · intro m hm
    rcases List.mem_map.1 hm with ⟨m0, hm0, rfl⟩
    exact scaleM_WF (h.2 m0 hm0)

theorem scale4_WF {a b t d : ℕ} {c : ℝ} {x : Tensor4} (h : T4WF a b t d x) :
    T4WF a b t d (scale4 c x) := by
  constructor
  · simp [scale4, h.1]
  · intro u hu
    rcases List.mem_map.1 hu with ⟨u0, hu0, rfl⟩
    exact scale3_WF (h.2 u0 hu0)

theorem maskedFillM_WF {t d : ℕ} {s m : Mat} (hs : MatWF t d s) (hm : MatWF t d m) :
    MatWF t d (maskedFillM s m) := by
  constructor
  · simp [maskedFillM, List.length_zipWith, hs.1, hm.1]
  · intro r hr
    rcases mem_zipWith hr with ⟨sr, hsr, mr, hmr, rfl⟩
    simp [List.length_zipWith, hs.2 sr hsr, hm.2 mr hmr]

theorem maskedFill3_WF {b t d : ℕ} {s m : Tensor3} (hs : T3WF b t d s)
    (hm : T3WF b t d m) : T3WF b t d (maskedFill3 s m) := by
  constructor
  · simp [maskedFill3, List.length_zipWith, hs.1, hm.1]
  · intro mm hmm
    rcases mem_zipWith hmm with ⟨s0, hs0, m0, hm0, rfl⟩
    exact maskedFillM_WF (hs.2 s0 hs0) (hm.2 m0 hm0)

theorem maskedFill4_WF {a b t d : ℕ} {s m : Tensor4} (hs : T4WF a b t d s)
    (hm : T4WF a b t d m) : T4WF a b t d (maskedFill4 s m) := by
  constructor
  · simp [maskedFill4, List.length_zipWith, hs.1, hm.1]
  · intro mm hmm
    rcases mem_zipWith hmm with ⟨s0, hs0, m0, hm0, rfl⟩
    exact maskedFill3_WF (hs.2 s0 hs0) (hm.2 m0 hm0)

theorem zipWith_matmulT_WF {n tq tk m : ℕ} {q k : Tensor3}
    (hq : T3WF n tq m q) (hk : T3WF n tk m k) :
    T3WF n tq tk (List.zipWith matmulT q k) := by
  constructor
  · simp [List.length_zipWith, hq.1, hk.1]
  · intro mm hmm
    rcases mem_zipWith hmm with ⟨a, ha, b, hb, rfl⟩
    exact matmulT_WF (hq.2 a ha).1 (hk.2 b hb).1

theorem zipWith_matmulR_WF {n tq tk m : ℕ} {w v : Tensor3}
    (hw : T3WF n tq tk w) (hv : T3WF n tk m v) (htk : 0 < tk) :
    T3WF n tq m (List.zipWith matmulR w v) := by
  constructor
  · simp [List.length_zipWith, hw.1, hv.1]
  · intro mm hmm
    rcases mem_zipWith hmm with ⟨a, ha, b, hb, rfl⟩
    exact matmulR_WF (hw.2 a ha).1 (hv.2 b hb) htk

theorem view3_T3WF {a t c : ℕ} {y : Tensor3}
    (hlen : (flatten3 y).length = a * (t * c)) (hc : 0 < c) (ht : 0 < t)
    (ha : 0 < a) : T3WF a t c (view3 a c y) := by
  unfold view3
  have hsize : (flatten3 y).length / a = t * c := by
    rw [hlen, Nat.mul_div_cancel_left _ ha]
  rw [hsize]
  exact chunks_T3WF hc ht hlen

theorem headDim_pos {p : MultiHeadAttention} (hp : MHAWF p) : 0 < p.headDim :=
  Nat.div_pos (Nat.le_of_dvd hp.2.2.2.2.2.1 hp.2.2.2.2.2.2) hp.2.2.2.2.1

theorem d_model_eq_heads_mul_headDim {p : MultiHeadAttention} (hp : MHAWF p) :
    p.d_model = p.num_heads * p.headDim :=
  (Nat.mul_div_cancel' hp.2.2.2.2.2.2).symm

theorem MHA_split_WF {p : MultiHeadAttention} (hp : MHAWF p) {B T D : ℕ}
    (hD : p.d_model = D) {t : Tensor3} (ht : T3WF B T D t) {L : Linear}
    (hL : LinearWF D D L) (hB : 0 < B) (hT : 0 < T) :
    T3WF (B * p.num_heads) T p.headDim (p.split B L t) := by
  have hM : 0 < p.headDim := headDim_pos hp
  have hH : 0 < p.num_heads := hp.2.2.2.2.1
  have hproj : T3WF B T D (linearMap3 L t) := linearMap3_WF hL ht
  unfold MultiHeadAttention.split
  apply view3_T3WF _ hM hT (by positivity)
  rw [flatten3_length hproj, ← hD, d_model_eq_heads_mul_headDim hp]
  ring

theorem MHA_scaledScores_WF {p : MultiHeadAttention} (hp : MHAWF p)
    {B Tq Tk D : ℕ} {query key : Tensor3} (hD : p.d_model = D)
    (hq : T3WF B Tq D query) (hk : T3WF B Tk D key)
    (hB : 0 < B) (hTq : 0 < Tq) (hTk : 0 < Tk) :
    T3WF (B * p.num_heads) Tq Tk (p.scaledScores query key) := by
  unfold MultiHeadAttention.scaledScores
  apply scale3_WF
  rw [hq.1]
  exact zipWith_matmulT_WF
    (MHA_split_WF hp hD hq (hD ▸ hp.1) hB hTq)
    (MHA_split_WF hp hD hk (hD ▸ hp.2.1) hB hTk)

theorem MHA_maskedScores_WF {p : MultiHeadAttention} (hp : MHAWF p)
    {B Tq Tk D : ℕ} {query key : Tensor3} {mask : Option Tensor3}
    (hD : p.d_model = D) (hq : T3WF B Tq D query) (hk : T3WF B Tk D key)
    (hmask : OptT3WF (B * p.num_heads) Tq Tk mask)
    (hB : 0 < B) (hTq : 0 < Tq) (hTk : 0 < Tk) :
    T3WF (B * p.num_heads) Tq Tk (p.maskedScores query key mask) := by
  match mask with
  | none => exact MHA_scaledScores_WF hp hD hq hk hB hTq hTk
  | some m =>
    exact maskedFill3_WF (MHA_scaledScores_WF hp hD hq hk hB hTq hTk) hmask

theorem MHA_weights_WF {p : MultiHeadAttention} (hp : MHAWF p)
    {B Tq Tk D : ℕ} {query key : Tensor3} {mask : Option Tensor3}
    (hD : p.d_model = D) (hq : T3WF B Tq D query) (hk : T3WF B Tk D key)
    (hmask : OptT3WF (B * p.num_heads) Tq Tk mask)
    (hB : 0 < B) (hTq : 0 < Tq) (hTk : 0 < Tk) :
    T3WF (B * p.num_heads) Tq Tk (p.weights query key mask) :=
  softmax3_WF (MHA_maskedScores_WF hp hD hq hk hmask hB hTq hTk)

theorem MHA_forward_WF {p : MultiHeadAttention} (hp : MHAWF p)
    {B Tq Tk D : ℕ} {query key value : Tensor3} {mask : Option Tensor3}
    (hD : p.d_model = D) (hq : T3WF B Tq D query) (hk : T3WF B Tk D key)
    (hv : T3WF B Tk D value) (hmask : OptT3WF (B * p.num_heads) Tq Tk mask)
    (hB : 0 < B) (hTq : 0 < Tq) (hTk : 0 < Tk) :
    T3WF B Tq D (p.forward query key value mask) := by
  have hM : 0 < p.headDim := headDim_pos hp
  have hH : 0 < p.num_heads := hp.2.2.2.2.1
  have hvh : T3WF (B * p.num_heads) Tk p.headDim (p.split B p.value_linear value) :=
    MHA_split_WF hp hD hv (hD ▸ hp.2.2.1) hB hTk
  have hattended : T3WF (B * p.num_heads) Tq p.headDim
      (List.zipWith matmulR (p.weights query key mask)
        (p.split B p.value_linear value)) :=
    zipWith_matmulR_WF (MHA_weights_WF hp hD hq hk hmask hB hTq hTk) hvh hTk
  unfold MultiHeadAttention.forward
  simp only [hq.1]
  apply linearMap3_WF (hD ▸ hp.2.2.2.1)
  rw [hD]
  apply view3_T3WF _ (show 0 < D from hD ▸ hp.2.2.2.2.2.1) hTq hB
  rw [flatten3_length hattended, ← hD, d_model_eq_heads_mul_headDim hp]
  ring

theorem headLen_of_T3WF {b t d : ℕ} {x : Tensor3} (h : T3WF b t d x) (hb : 0 < b) :
    headLen x = t := by
  rcases x with _ | ⟨m, rest⟩
  · exact absurd h.1 (by simp; omega)
  · exact (h.2 m (by simp)).1

theorem MHA_forward_eq_amended {p : MultiHeadAttention} (hp : MHAWF p)
    {B Tq Tk : ℕ} {query key value : Tensor3} {mask : Option Tensor3}
    (hq : T3WF B Tq p.d_model query) (hk : T3WF B Tk p.d_model key)
    (hv : T3WF B Tk p.d_model value)
    (hmask : OptT3WF (B * p.num_heads) Tq Tk mask)
    (hB : 0 < B) (hTq : 0 < Tq) (hTk : 0 < Tk) :
    p.forward query key value mask = specMHA_amended p query key value mask := by
  have hH : 0 < p.num_heads := hp.2.2.2.2.1
  have hM : 0 < p.headDim := headDim_pos hp
  have hDm : p.d_model = p.num_heads * p.headDim := d_model_eq_heads_mul_headDim hp
  have hsq : p.split query.length p.query_linear query =
      amendedSplitHeads (headLen query) p.headDim (linearMap3 p.query_linear query) := by
    rw [headLen_of_T3WF hq hB]
    unfold MultiHeadAttention.split
    rw [hq.1]
    exact view3_eq_amendedSplit (linearMap3_WF hp.1 hq) hDm hH hM
  have hsk : p.split query.length p.key_linear key =
      amendedSplitHeads (headLen key) p.headDim (linearMap3 p.key_linear key) := by
    rw [headLen_of_T3WF hk hB]
    unfold MultiHeadAttention.split
    rw [hq.1]
    exact view3_eq_amendedSplit (linearMap3_WF hp.2.1 hk) hDm hH hM
  have hsv : p.split query.length p.value_linear value =
      amendedSplitHeads (headLen value) p.headDim (linearMap3 p.value_linear value) := by
    rw [headLen_of_T3WF hv hB]
    unfold MultiHeadAttention.split
    rw [hq.1]
    exact view3_eq_amendedSplit (linearMap3_WF hp.2.2.1 hv) hDm hH hM
  have hattended : T3WF (B * p.num_heads) Tq p.headDim
      (List.zipWith matmulR (p.weights query key mask)
        (p.split B p.value_linear value)) :=
    zipWith_matmulR_WF
      (MHA_weights_WF hp rfl hq hk hmask hB hTq hTk)
      (MHA_split_WF hp rfl hv hp.2.2.1 hB hTk) hTk
  have hspec : specMHA_amended p query key value mask =
      linearMap3 p.output_linear (perBatchMerge p.num_heads p.d_model
        (List.zipWith matmulR (p.weights query key mask)
          (p.split query.length p.value_linear value))) := by
    simp only [specMHA_amended, MultiHeadAttention.weights,
      MultiHeadAttention.maskedScores, MultiHeadAttention.scaledScores]
    rw [← hsq, ← hsk, ← hsv]
  rw [hspec]
  simp only [MultiHeadAttention.forward]
  congr 1
  rw [hq.1]
  exact view3_eq_perBatchMerge hattended hDm hH hM hTq hB

theorem scale3_flatten (c : ℝ) (U : Tensor4) :
    scale3 c U.flatten = (scale4 c U).flatten := by
  unfold scale3 scale4
  rw [List.map_flatten]
  rfl

theorem softmax3_flatten (U : Tensor4) :
    softmax3 U.flatten = (softmax4 U).flatten := by
  unfold softmax3 softmax4
  rw [List.map_flatten]
  rfl

theorem flatten3_flatten4 (U : Tensor4) : flatten3 U.flatten = flatten4 U := by
  unfold flatten3 flatten4
  rw [List.map_flatten, List.flatten_flatten, List.map_map]
  rfl

theorem flatten_T4WF {a n t d : ℕ} {U : Tensor4} (h : T4WF a n t d U) :
    T3WF (a * n) t d U.flatten := by
  constructor
  · rw [flatten_length_of_blocks (fun u hu => (h.2 u hu).1), h.1]
  · intro m hm
    rcases List.mem_flatten.1 hm with ⟨u, hu, hmu⟩
    exact (h.2 u hu).2 m hmu

theorem zipWith2_matmulT_WF {a n tq tk m : ℕ} {q k : Tensor4}
    (hq : T4WF a n tq m q) (hk : T4WF a n tk m k) :
    T4WF a n tq tk (List.zipWith (fun qb kb => List.zipWith matmulT qb kb) q k) := by
  constructor
  · simp [List.length_zipWith, hq.1, hk.1]
  · intro u hu
    rcases mem_zipWith hu with ⟨qb, hqb, kb, hkb, rfl⟩
    exact zipWith_matmulT_WF (hq.2 qb hqb) (hk.2 kb hkb)

theorem zipWith2_matmulR_WF {a n tq tk m : ℕ} {w v : Tensor4}
    (hw : T4WF a n tq tk w) (hv : T4WF a n tk m v) (htk : 0 < tk) :
    T4WF a n tq m (List.zipWith (fun wb vb => List.zipWith matmulR wb vb) w v) := by
  constructor
  · simp [List.length_zipWith, hw.1, hv.1]
  · intro u hu
    rcases mem_zipWith hu with ⟨wb, hwb, vb, hvb, rfl⟩
    exact zipWith_matmulR_WF (hw.2 wb hwb) (hv.2 vb hvb) htk

theorem view3_eq_view3full {B H T M D : ℕ} {U : Tensor4} (hU : T4WF B H T M U)
    (hDm : D = H * M) (hB : 0 < B) :
    view3 B D U.flatten = view3full T D (flatten4 U) := by
  have hWF : T3WF (B * H) T M U.flatten := flatten_T4WF hU
  unfold view3 view3full
  have hsize : (flatten3 U.flatten).length / B = T * D := by
    rw [flatten3_length hWF, hDm]
    have harith : B * H * (T * M) = B * (T * (H * M)) := by ring
    rw [harith, Nat.mul_div_cancel_left _ hB]
  rw [hsize, flatten3_flatten4]

/-- C2: for every input `x` of shape `(B, T, D)` with `D` divisible by
`num_heads`, and equal parameter values for the corresponding projection
layers, `SelfAttention.forward x` with `bias = none` and `mask = none`
computes the same attended output as `MultiHeadAttention.forward` applied
with `query = key = value = x`; the attention weights it additionally
returns carry the heads as an explicit axis: folding that axis back into
the batch axis recovers exactly the multi-head attention weights. -/
theorem C2_selfattention_refines_multihead {H D : ℕ} (lq lk lv lo : Linear)
    {B T : ℕ} {x : Tensor3} (hx : T3WF B T D x) (hH : 0 < H) (hD : 0 < D)
    (hdvd : H ∣ D) (hlq : LinearWF D D lq) (hlk : LinearWF D D lk)
    (hlv : LinearWF D D lv) (hB : 0 < B) (hT : 0 < T) :
    (SelfAttention.forward ⟨D, H, lq, lk, lv, lo⟩ x none none).1 =
      MultiHeadAttention.forward ⟨H, D, lq, lk, lv, lo⟩ x x x none ∧
    ((SelfAttention.forward ⟨D, H, lq, lk, lv, lo⟩ x none none).2).flatten =
      MultiHeadAttention.weights ⟨H, D, lq, lk, lv, lo⟩ x x none := by
  have hM : 0 < D / H := Nat.div_pos (Nat.le_of_dvd hD hdvd) hH
  have hDm : D = H * (D / H) := (Nat.mul_div_cancel' hdvd).symm
  have hhl : headLen x = T := headLen_of_T3WF hx hB
  have hqWF : T3WF B T D (linearMap3 lq x) := linearMap3_WF hlq hx
  have hkWF : T3WF B T D (linearMap3 lk x) := linearMap3_WF hlk hx
  have hvWF : T3WF B T D (linearMap3 lv x) := linearMap3_WF hlv hx
  have hq4 : T4WF B H T (D / H) (view4 H T (D / H) (linearMap3 lq x)) :=
    view4_T4WF hqWF hDm hH hM hT
  have hk4 : T4WF B H T (D / H) (view4 H T (D / H) (linearMap3 lk x)) :=
    view4_T4WF hkWF hDm hH hM hT
  have hv4 : T4WF B H T (D / H) (view4 H T (D / H) (linearMap3 lv x)) :=
    view4_T4WF hvWF hDm hH hM hT
  have hsc4 : T4WF B H T T (scale4 (Real.sqrt ((D / H : ℕ) : ℝ))
      (List.zipWith (fun qb kb => List.zipWith matmulT qb kb)
        (view4 H T (D / H) (linearMap3 lq x))
        (view4 H T (D / H) (linearMap3 lk x)))) :=
    scale4_WF (zipWith2_matmulT_WF hq4 hk4)
  have hw4 := softmax4_WF hsc4
  have hatt4 := zipWith2_matmulR_WF hw4 hv4 hT
  constructor
  · simp only [SelfAttention.forward, SelfAttention.attnWeights,
      SelfAttention.maskedScores, SelfAttention.scores, SelfAttention.qproj,
      SelfAttention.head_dim, dropout, MultiHeadAttention.forward,
      MultiHeadAttention.weights, MultiHeadAttention.maskedScores,
      MultiHeadAttention.scaledScores, MultiHeadAttention.split,
      MultiHeadAttention.headDim]
    rw [hx.1, hhl]
    rw [← view4_flatten_eq_view3 hqWF hDm hH hM hT,
      ← view4_flatten_eq_view3 hkWF hDm hH hM hT,
      ← view4_flatten_eq_view3 hvWF hDm hH hM hT,
      zipWith_flatten_of_blocks matmulT _ _ (fun u hu => (hq4.2 u hu).1)
        (fun u hu => (hk4.2 u hu).1),
      scale3_flatten, softmax3_flatten,
      zipWith_flatten_of_blocks matmulR _ _ (fun u hu => (hw4.2 u hu).1)
        (fun u hu => (hv4.2 u hu).1),
      view3_eq_view3full hatt4 hDm hB]
  · simp only [SelfAttention.forward, SelfAttention.attnWeights,
      SelfAttention.maskedScores, SelfAttention.scores, SelfAttention.qproj,
      SelfAttention.head_dim, dropout, MultiHeadAttention.weights,
      MultiHeadAttention.maskedScores, MultiHeadAttention.scaledScores,
      MultiHeadAttention.split, MultiHeadAttention.headDim]
    rw [hx.1, hhl]
    rw [← view4_flatten_eq_view3 hqWF hDm hH hM hT,
      ← view4_flatten_eq_view3 hkWF hDm hH hM hT,
      zipWith_flatten_of_blocks matmulT _ _ (fun u hu => (hq4.2 u hu).1)
        (fun u hu => (hk4.2 u hu).1),
      scale3_flatten, softmax3_flatten]

/-- C1 (amended): `MultiHeadAttention.forward` implements the claimed
algorithm — independent linear projections, reshape to
`(B*H, T, D/H)` with heads folded into the batch axis, scores scaled by
`1 / sqrt (D/H)`, optional `-1e9` masking, softmax over the key axis,
weighted sum of values, reshape back to `(B, T_q, D)`, output
projection — except that the head reshape is not a split of the feature
axis: `view (B*H, T, D/H)` reinterprets each batch item's flattened
`(T*D)` scalar block in row-major order, so head `h` holds the contiguous
scalars `[h*T*(D/H), (h+1)*T*(D/H))` of that block (mixing timesteps and
features), as rendered by `specMHA_amended`, not the per-timestep feature
slice `[h*(D/H), (h+1)*(D/H))` of the original claim. -/
theorem C1_multihead_forward_amended {p : MultiHeadAttention} (hp : MHAWF p)
    {B Tq Tk : ℕ} {query key value : Tensor3} {mask : Option Tensor3}
    (hq : T3WF B Tq p.d_model query) (hk : T3WF B Tk p.d_model key)
    (hv : T3WF B Tk p.d_model value)
    (hmask : OptT3WF (B * p.num_heads) Tq Tk mask)
    (hB : 0 < B) (hTq : 0 < Tq) (hTk : 0 < Tk) :
    p.forward query key value mask = specMHA_amended p query key value mask :=
  MHA_forward_eq_amended hp hq hk hv hmask hB hTq hTk

/-- C1 counterexample: at batch 1, two timesteps, `d_model = 2`, two heads
and identity projections, the code's `view (B*H, -1, D/H)` reshape does
not split the feature axis, so `MultiHeadAttention.forward` differs from
the algorithm the claim describes (`specMHA_claimed`): entry (0,0,0) of
the output is `1/2` for the code but `0` for the claimed algorithm. -/
theorem C1_claimed_reshape_counterexample :
    MHAWF (⟨2, 2, ⟨[[1, 0], [0, 1]], [0, 0]⟩, ⟨[[1, 0], [0, 1]], [0, 0]⟩,
        ⟨[[1, 0], [0, 1]], [0, 0]⟩, ⟨[[1, 0], [0, 1]], [0, 0]⟩⟩ :
        MultiHeadAttention) ∧
    T3WF 1 2 2 ([[[0, 1], [0, 1]]] : Tensor3) ∧
    MultiHeadAttention.forward
        ⟨2, 2, ⟨[[1, 0], [0, 1]], [0, 0]⟩, ⟨[[1, 0], [0, 1]], [0, 0]⟩,
          ⟨[[1, 0], [0, 1]], [0, 0]⟩, ⟨[[1, 0], [0, 1]], [0, 0]⟩⟩
        [[[0, 1], [0, 1]]] [[[0, 1], [0, 1]]] [[[0, 1], [0, 1]]] none ≠
      specMHA_claimed
        ⟨2, 2, ⟨[[1, 0], [0, 1]], [0, 0]⟩, ⟨[[1, 0], [0, 1]], [0, 0]⟩,
          ⟨[[1, 0], [0, 1]], [0, 0]⟩, ⟨[[1, 0], [0, 1]], [0, 0]⟩⟩
        [[[0, 1], [0, 1]]] [[[0, 1], [0, 1]]] [[[0, 1], [0, 1]]] none := by
  refine ⟨by decide, by decide, ?_⟩
  have hr1 : List.range 1 = [0] := by decide
  have hr2 : List.range 2 = [0, 1] := by decide
  intro h
  have h000 := congrArg (fun t : Tensor3 => ((t.getD 0 []).getD 0 []).getD 0 0) h
  norm_num [MultiHeadAttention.forward, MultiHeadAttention.weights,
    MultiHeadAttention.maskedScores, MultiHeadAttention.scaledScores,
    MultiHeadAttention.split, MultiHeadAttention.headDim, view3, flatten3, chunks,
    linearMap3, linearMap, applyLinear, dot, scale3, scaleM, softmax3, softmaxM,
    softmaxRow, matmulT, matmulR, transposeM, headLen, specMHA_claimed,
    claimedSplitHeads, claimedMerge, hr1, hr2, Real.exp_zero, Real.sqrt_one] at h000

/-- Witness for C1 (amended), at batch 1, two timesteps, `d_model = 2`,
two heads, identity projections and no mask. -/
theorem C1_multihead_forward_amended_witness :
    (MHAWF (⟨2, 2, ⟨[[1, 0], [0, 1]], [0, 0]⟩, ⟨[[1, 0], [0, 1]], [0, 0]⟩,
        ⟨[[1, 0], [0, 1]], [0, 0]⟩, ⟨[[1, 0], [0, 1]], [0, 0]⟩⟩ :
        MultiHeadAttention) ∧
      T3WF 1 2 2 ([[[0, 1], [0, 1]]] : Tensor3)) ∧
    MultiHeadAttention.forward
        ⟨2, 2, ⟨[[1, 0], [0, 1]], [0, 0]⟩, ⟨[[1, 0], [0, 1]], [0, 0]⟩,
          ⟨[[1, 0], [0, 1]], [0, 0]⟩, ⟨[[1, 0], [0, 1]], [0, 0]⟩⟩
        [[[0, 1], [0, 1]]] [[[0, 1], [0, 1]]] [[[0, 1], [0, 1]]] none =
      specMHA_amended
        ⟨2, 2, ⟨[[1, 0], [0, 1]], [0, 0]⟩, ⟨[[1, 0], [0, 1]], [0, 0]⟩,
          ⟨[[1, 0], [0, 1]], [0, 0]⟩, ⟨[[1, 0], [0, 1]], [0, 0]⟩⟩
        [[[0, 1], [0, 1]]] [[[0, 1], [0, 1]]] [[[0, 1], [0, 1]]] none :=
  ⟨⟨by decide, by decide⟩,
    @C1_multihead_forward_amended
      ⟨2, 2, ⟨[[1, 0], [0, 1]], [0, 0]⟩, ⟨[[1, 0], [0, 1]], [0, 0]⟩,
        ⟨[[1, 0], [0, 1]], [0, 0]⟩, ⟨[[1, 0], [0, 1]], [0, 0]⟩⟩
      (by decide) 1 2 2 [[[0, 1], [0, 1]]] [[[0, 1], [0, 1]]] [[[0, 1], [0, 1]]]
      none (by decide) (by decide) (by decide) trivial (by decide) (by decide)
      (by decide)⟩

/-- Witness for C2 at batch 1, two timesteps, `hidden_dim = 2`, two heads,
identity projections. -/
theorem C2_selfattention_refines_multihead_witness :
    (T3WF 1 2 2 ([[[0, 1], [0, 1]]] : Tensor3) ∧ 2 ∣ 2 ∧
      LinearWF 2 2 ⟨[[1, 0], [0, 1]], [0, 0]⟩) ∧
    ((SelfAttention.forward
        ⟨2, 2, ⟨[[1, 0], [0, 1]], [0, 0]⟩, ⟨[[1, 0], [0, 1]], [0, 0]⟩,
          ⟨[[1, 0], [0, 1]], [0, 0]⟩, ⟨[[1, 0], [0, 1]], [0, 0]⟩⟩
        [[[0, 1], [0, 1]]] none none).1 =
      MultiHeadAttention.forward
        ⟨2, 2, ⟨[[1, 0], [0, 1]], [0, 0]⟩, ⟨[[1, 0], [0, 1]], [0, 0]⟩,
          ⟨[[1, 0], [0, 1]], [0, 0]⟩, ⟨[[1, 0], [0, 1]], [0, 0]⟩⟩
        [[[0, 1], [0, 1]]] [[[0, 1], [0, 1]]] [[[0, 1], [0, 1]]] none ∧
    ((SelfAttention.forward
        ⟨2, 2, ⟨[[1, 0], [0, 1]], [0, 0]⟩, ⟨[[1, 0], [0, 1]], [0, 0]⟩,
          ⟨[[1, 0], [0, 1]], [0, 0]⟩, ⟨[[1, 0], [0, 1]], [0, 0]⟩⟩
        [[[0, 1], [0, 1]]] none none).2).flatten =
      MultiHeadAttention.weights
        ⟨2, 2, ⟨[[1, 0], [0, 1]], [0, 0]⟩, ⟨[[1, 0], [0, 1]], [0, 0]⟩,
          ⟨[[1, 0], [0, 1]], [0, 0]⟩, ⟨[[1, 0], [0, 1]], [0, 0]⟩⟩
        [[[0, 1], [0, 1]]] [[[0, 1], [0, 1]]] none) :=
  ⟨⟨by decide, by decide, by decide⟩,
    @C2_selfattention_refines_multihead 2 2
      ⟨[[1, 0], [0, 1]], [0, 0]⟩ ⟨[[1, 0], [0, 1]], [0, 0]⟩
      ⟨[[1, 0], [0, 1]], [0, 0]⟩ ⟨[[1, 0], [0, 1]], [0, 0]⟩
      1 2 [[[0, 1], [0, 1]]] (by decide) (by decide) (by decide) (by decide)
      (by decide) (by decide) (by decide) (by decide) (by decide)⟩

theorem getD_replicate_of_lt {r n : ℕ} {a : Vec} (h : n < r) :
    (List.replicate r a).getD n [] = a := by
  rw [List.getD_eq_getElem _ _ (by simp [h]), List.getElem_replicate]

/-- C3: in `HierarchicalTemporalAttention`, for every odd window size `w`
and every batch item with at least one timestep, the symmetric zero
padding by `(w-1)/2` rows followed by the sliding-window extraction
(`padTime` then `windowsOf`, exactly as `levelOut` performs them) yields
exactly `T` windows, each of exact width `w`; entry `j` of window `t` is
original row `t + j - (w-1)/2` when that index is in range and an
all-zero row otherwise, so window `t` is centered on timestep `t` and
boundary windows see zero padding, never wraparound. -/
theorem C3_window_extraction {w d : ℕ} {m : Mat} (hw : Odd w) (hT : 1 ≤ m.length) :
    (windowsOf w (padTime ((w - 1) / 2) d m)).length = m.length ∧
    (∀ win ∈ windowsOf w (padTime ((w - 1) / 2) d m), win.length = w) ∧
    (∀ t j, t < m.length → j < w →
      ((windowsOf w (padTime ((w - 1) / 2) d m)).getD t []).getD j [] =
        if (w - 1) / 2 ≤ t + j ∧ t + j < (w - 1) / 2 + m.length
        then m.getD (t + j - (w - 1) / 2) []
        else List.replicate d 0) := by
  rcases hw with ⟨k, hk⟩
  set p := (w - 1) / 2 with hp
  have hpk : p = k := by omega
  have hw1 : 1 ≤ w := by omega
  have hpadlen : (padTime p d m).length = m.length + 2 * p := by
    simp [padTime]
    omega
  have hcount : (windowsOf w (padTime p d m)).length = m.length := by
    simp [windowsOf, hpadlen]
    omega
  have hpadget : ∀ i, i < m.length + 2 * p →
      (padTime p d m).getD i [] =
        if p ≤ i ∧ i < p + m.length then m.getD (i - p) [] else List.replicate d 0 := by
    intro i hi
    unfold padTime
    by_cases h1 : i < p
    · rw [List.getD_append _ _ _ i (by simp; omega),
        List.getD_append _ _ _ i (by simp; omega),
        getD_replicate_of_lt h1, if_neg (by omega)]
    · by_cases h2 : i < p + m.length
      · rw [List.getD_append _ _ _ i (by simp; omega),
          List.getD_append_right _ _ _ i (by simp; omega), if_pos (by omega)]
        simp
      · rw [List.getD_append_right _ _ _ i (by simp; omega), if_neg (by omega)]
        simp only [List.length_append, List.length_replicate]
        exact getD_replicate_of_lt (by omega)
  refine ⟨hcount, ?_, ?_⟩
  · intro win hwin
    rcases List.mem_map.1 hwin with ⟨t, htmem, rfl⟩
    have ht : t < m.length + 2 * p + 1 - w := by
      have := List.mem_range.1 htmem
      rw [hpadlen] at this
      omega
    simp [List.length_take, List.length_drop, hpadlen]
    omega
  · intro t j ht hj
    have hlt : t < (windowsOf w (padTime p d m)).length := by omega
    rw [List.getD_eq_getElem _ _ hlt]
    unfold windowsOf
    rw [List.getElem_map, List.getElem_range]
    have hb : j < (((padTime p d m).drop t).take w).length := by
      simp [List.length_take, List.length_drop, hpadlen]
      omega
    rw [List.getD_eq_getElem _ _ hb, List.getElem_take, List.getElem_drop,
      ← List.getD_eq_getElem (padTime p d m) [] (by rw [hpadlen]; omega),
      hpadget (t + j) (by omega)]

/-- Witness for C3 at window size 3 on a two-timestep, width-1 batch
item. -/
theorem C3_window_extraction_witness :
    (Odd 3 ∧ 1 ≤ ([[(1 : ℝ)], [2]] : Mat).length) ∧
    (windowsOf 3 (padTime ((3 - 1) / 2) 1 [[(1 : ℝ)], [2]])).length =
      ([[(1 : ℝ)], [2]] : Mat).length :=
  ⟨⟨by decide, by decide⟩, (C3_window_extraction (by decide) (by decide)).1⟩

theorem addM_WF {t d : ℕ} {x y : Mat} (hx : MatWF t d x) (hy : MatWF t d y) :
    MatWF t d (addM x y) := by
  constructor
  · simp [addM, List.length_zipWith, hx.1, hy.1]
  · intro r hr
    rcases mem_zipWith hr with ⟨a, ha, b, hb, rfl⟩
    simp [List.length_zipWith, hx.2 a ha, hy.2 b hb]

theorem add3_WF {b t d : ℕ} {x y : Tensor3} (hx : T3WF b t d x) (hy : T3WF b t d y) :
    T3WF b t d (add3 x y) := by
  constructor
  · simp [add3, List.length_zipWith, hx.1, hy.1]
  · intro m hm
    rcases mem_zipWith hm with ⟨a, ha, b2, hb, rfl⟩
    exact addM_WF (hx.2 a ha) (hy.2 b2 hb)

theorem SA_head_dim_pos {sa : SelfAttention} (hsa : SAWF sa) : 0 < sa.head_dim :=
  Nat.div_pos (Nat.le_of_dvd hsa.2.2.2.2.2.1 hsa.2.2.2.2.2.2) hsa.2.2.2.2.1

theorem hidden_dim_eq_heads_mul_head_dim {sa : SelfAttention} (hsa : SAWF sa) :
    sa.hidden_dim = sa.num_heads * sa.head_dim :=
  (Nat.mul_div_cancel' hsa.2.2.2.2.2.2).symm

theorem SA_qproj_WF {sa : SelfAttention} (hsa : SAWF sa) {B T : ℕ} {x : Tensor3}
    {bias : Option Tensor3} (hx : T3WF B T sa.hidden_dim x)
    (hbias : OptT3WF B T sa.hidden_dim bias) :
    T3WF B T sa.hidden_dim (sa.qproj x bias) := by
  match bias with
  | none => exact linearMap3_WF hsa.1 hx
  | some b => exact add3_WF (linearMap3_WF hsa.1 hx) (linearMap3_WF hsa.1 hbias)

theorem SA_scores_WF {sa : SelfAttention} (hsa : SAWF sa) {B T : ℕ} {x : Tensor3}
    {bias : Option Tensor3} (hx : T3WF B T sa.hidden_dim x)
    (hbias : OptT3WF B T sa.hidden_dim bias) (hB : 0 < B) (hT : 0 < T) :
    T4WF B sa.num_heads T T (sa.scores x bias) := by
  have hH : 0 < sa.num_heads := hsa.2.2.2.2.1
  have hM : 0 < sa.head_dim := SA_head_dim_pos hsa
  have hDm : sa.hidden_dim = sa.num_heads * sa.head_dim :=
    hidden_dim_eq_heads_mul_head_dim hsa
  unfold SelfAttention.scores
  rw [headLen_of_T3WF hx hB]
  exact scale4_WF (zipWith2_matmulT_WF
    (view4_T4WF (SA_qproj_WF hsa hx hbias) hDm hH hM hT)
    (view4_T4WF (linearMap3_WF hsa.2.1 hx) hDm hH hM hT))

theorem SA_maskedScores_WF {sa : SelfAttention} (hsa : SAWF sa) {B T : ℕ}
    {x : Tensor3} {bias : Option Tensor3} {mask : Option Tensor4}
    (hx : T3WF B T sa.hidden_dim x) (hbias : OptT3WF B T sa.hidden_dim bias)
    (hmask : OptT4WF B sa.num_heads T T mask) (hB : 0 < B) (hT : 0 < T) :
    T4WF B sa.num_heads T T (sa.maskedScores x bias mask) := by
  match mask with
  | none => exact SA_scores_WF hsa hx hbias hB hT
  | some m => exact maskedFill4_WF (SA_scores_WF hsa hx hbias hB hT) hmask

theorem softmaxRow_sum {r : Vec} (hr : r ≠ []) : (softmaxRow r).sum = 1 := by
  have hpos : 0 < (r.map Real.exp).sum := by
    apply List.sum_pos
    · intro s hs
      rcases List.mem_map.1 hs with ⟨a, _, rfl⟩
      exact Real.exp_pos a
    · simp [hr]
  unfold softmaxRow
  have hfun : (fun s => Real.exp s / (r.map Real.exp).sum) =
      (fun s => Real.exp s * ((r.map Real.exp).sum)⁻¹) :=
    funext (fun s => div_eq_mul_inv _ _)
  rw [hfun, List.sum_map_mul_right, mul_inv_cancel₀ (ne_of_gt hpos)]

theorem softmax3_row_sums {n tq tk : ℕ} {X : Tensor3} (hX : T3WF n tq tk X)
    (htk : 0 < tk) : ∀ mat ∈ softmax3 X, ∀ row ∈ mat, row.sum = 1 := by
  intro mat hmat row hrow
  rcases List.mem_map.1 hmat with ⟨m0, hm0, rfl⟩
  rcases List.mem_map.1 hrow with ⟨r0, hr0, rfl⟩
  apply softmaxRow_sum
  have hlen := (hX.2 m0 hm0).2 r0 hr0
  intro hnil
  rw [hnil] at hlen
  simp at hlen
  omega

theorem softmax4_row_sums {a n tq tk : ℕ} {X : Tensor4} (hX : T4WF a n tq tk X)
    (htk : 0 < tk) : ∀ u ∈ softmax4 X, ∀ mat ∈ u, ∀ row ∈ mat, row.sum = 1 := by
  intro u hu
  rcases List.mem_map.1 hu with ⟨u0, hu0, rfl⟩
  exact softmax3_row_sums (hX.2 u0 hu0) htk

/-- C5: for all well-shaped inputs, every row of the post-softmax
attention-weight matrices sums to exactly 1 (over real arithmetic), both
for `MultiHeadAttention` — which is also the attention run by the local
and global branches of `HierarchicalTemporalAttention` — and for
`SelfAttention`, with or without a mask. -/
theorem C5_attention_rows_sum_to_one
    {p : MultiHeadAttention} (hp : MHAWF p) {B Tq Tk : ℕ}
    {query key : Tensor3} {mask : Option Tensor3}
    (hq : T3WF B Tq p.d_model query) (hk : T3WF B Tk p.d_model key)
    (hmask : OptT3WF (B * p.num_heads) Tq Tk mask)
    (hB : 0 < B) (hTq : 0 < Tq) (hTk : 0 < Tk)
    {sa : SelfAttention} (hsa : SAWF sa) {B2 T2 : ℕ} {x : Tensor3}
    {bias : Option Tensor3} {mask4 : Option Tensor4}
    (hx : T3WF B2 T2 sa.hidden_dim x) (hbias : OptT3WF B2 T2 sa.hidden_dim bias)
    (hmask4 : OptT4WF B2 sa.num_heads T2 T2 mask4) (hB2 : 0 < B2) (hT2 : 0 < T2) :
    (∀ mat ∈ p.weights query key mask, ∀ row ∈ mat, row.sum = 1) ∧
    (∀ u ∈ sa.attnWeights x bias mask4, ∀ mat ∈ u, ∀ row ∈ mat, row.sum = 1) :=
  ⟨softmax3_row_sums (MHA_maskedScores_WF hp rfl hq hk hmask hB hTq hTk) hTk,
    softmax4_row_sums (SA_maskedScores_WF hsa hx hbias hmask4 hB2 hT2) hT2⟩

/-- Witness for C5 with one-dimensional single-head attention modules on a
single-timestep input. -/
theorem C5_attention_rows_sum_to_one_witness :
    (MHAWF (⟨1, 1, ⟨[[1]], [0]⟩, ⟨[[1]], [0]⟩, ⟨[[1]], [0]⟩, ⟨[[1]], [0]⟩⟩ :
        MultiHeadAttention) ∧
      SAWF (⟨1, 1, ⟨[[1]], [0]⟩, ⟨[[1]], [0]⟩, ⟨[[1]], [0]⟩, ⟨[[1]], [0]⟩⟩ :
        SelfAttention) ∧
      T3WF 1 1 1 ([[[0]]] : Tensor3)) ∧
    (∀ mat ∈ MultiHeadAttention.weights
        ⟨1, 1, ⟨[[1]], [0]⟩, ⟨[[1]], [0]⟩, ⟨[[1]], [0]⟩, ⟨[[1]], [0]⟩⟩
        [[[0]]] [[[0]]] none, ∀ row ∈ mat, row.sum = 1) ∧
    (∀ u ∈ SelfAttention.attnWeights
        ⟨1, 1, ⟨[[1]], [0]⟩, ⟨[[1]], [0]⟩, ⟨[[1]], [0]⟩, ⟨[[1]], [0]⟩⟩
        [[[0]]] none none, ∀ mat ∈ u, ∀ row ∈ mat, row.sum = 1) :=
  ⟨⟨by decide, by decide, by decide⟩,
    @C5_attention_rows_sum_to_one
      ⟨1, 1, ⟨[[1]], [0]⟩, ⟨[[1]], [0]⟩, ⟨[[1]], [0]⟩, ⟨[[1]], [0]⟩⟩
      (by decide) 1 1 1 [[[0]]] [[[0]]] none (by decide) (by decide) trivial
      (by decide) (by decide) (by decide)
      ⟨1, 1, ⟨[[1]], [0]⟩, ⟨[[1]], [0]⟩, ⟨[[1]], [0]⟩, ⟨[[1]], [0]⟩⟩
      (by decide) 1 1 [[[0]]] none none (by decide) trivial trivial
      (by decide) (by decide)⟩

theorem getD_map_of_lt {α β : Type*} (f : α → β) (l : List α) (d : α) (d2 : β)
    {n : ℕ} (h : n < l.length) : (l.map f).getD n d2 = f (l.getD n d) := by
  rw [List.getD_eq_getElem _ _ (by simp [h]), List.getElem_map,
    List.getD_eq_getElem _ _ h]

theorem getD_zipWith_of_lt {α β γ : Type*} {f : α → β → γ} {l₁ : List α}
    {l₂ : List β} {n : ℕ} (h1 : n < l₁.length) (h2 : n < l₂.length)
    (d1 : α) (d2 : β) (d3 : γ) :
    (List.zipWith f l₁ l₂).getD n d3 = f (l₁.getD n d1) (l₂.getD n d2) := by
  rw [List.getD_eq_getElem _ _ (by rw [List.length_zipWith]; omega),
    List.getElem_zipWith, List.getD_eq_getElem _ _ h1, List.getD_eq_getElem _ _ h2]

theorem getD_mem_of_lt {α : Type*} {l : List α} {n : ℕ} (h : n < l.length)
    (d : α) : l.getD n d ∈ l := by
  rw [List.getD_eq_getElem _ _ h]
  exact List.getElem_mem h

theorem softmaxRow_masked_entry {r : Vec} {j j2 : ℕ} (hj : j < r.length)
    (hj2 : j2 < r.length) (hval : r.getD j 0 = -1e9) :
    0 ≤ (softmaxRow r).getD j 0 ∧
    (softmaxRow r).getD j 0 ≤ Real.exp (-(1e9 : ℝ) - r.getD j2 0) := by
  have hS : 0 < (r.map Real.exp).sum := by
    apply List.sum_pos
    · intro s hs
      rcases List.mem_map.1 hs with ⟨a, _, rfl⟩
      exact Real.exp_pos a
    · intro hnil
      simp only [List.map_eq_nil_iff] at hnil
      rw [hnil] at hj
      simp at hj
  have hsm : (softmaxRow r).getD j 0 =
      Real.exp (r.getD j 0) / (r.map Real.exp).sum := by
    unfold softmaxRow
    rw [getD_map_of_lt _ r 0 0 hj]
  rw [hsm, hval]
  constructor
  · positivity
  · have hmem : Real.exp (r.getD j2 0) ∈ r.map Real.exp := by
      rw [List.getD_eq_getElem _ _ hj2]
      exact List.mem_map.2 ⟨r[j2], List.getElem_mem hj2, rfl⟩
    have hle : Real.exp (r.getD j2 0) ≤ (r.map Real.exp).sum :=
      List.single_le_sum
        (fun y hy => by
          rcases List.mem_map.1 hy with ⟨a, _, rfl⟩
          exact le_of_lt (Real.exp_pos a)) _ hmem
    calc Real.exp (-1e9) / (r.map Real.exp).sum
        ≤ Real.exp (-1e9) / Real.exp (r.getD j2 0) :=
          div_le_div_of_nonneg_left (le_of_lt (Real.exp_pos _)) (Real.exp_pos _) hle
      _ = Real.exp (-(1e9 : ℝ) - r.getD j2 0) := (Real.exp_sub _ _).symm

theorem ent3_softmax3 {X : Tensor3} {g i : ℕ} (j : ℕ) (hg : g < X.length)
    (hi : i < (X.getD g []).length) :
    ent3 (softmax3 X) g i j = (softmaxRow ((X.getD g []).getD i [])).getD j 0 := by
  unfold ent3 softmax3 softmaxM
  rw [getD_map_of_lt _ X [] [] hg, getD_map_of_lt _ _ [] [] hi]

theorem ent3_maskedFill3 {s mk : Tensor3} {g i j : ℕ} (hg1 : g < s.length)
    (hg2 : g < mk.length) (hi1 : i < (s.getD g []).length)
    (hi2 : i < (mk.getD g []).length) (hj1 : j < ((s.getD g []).getD i []).length)
    (hj2 : j < ((mk.getD g []).getD i []).length) :
    ent3 (maskedFill3 s mk) g i j = fillEntry (ent3 s g i j) (ent3 mk g i j) := by
  unfold ent3 maskedFill3 maskedFillM
  rw [getD_zipWith_of_lt hg1 hg2 [] [] [],
    getD_zipWith_of_lt hi1 hi2 [] [] [],
    getD_zipWith_of_lt hj1 hj2 0 0 0]

theorem ent4_softmax4 {X : Tensor4} {a : ℕ} (b i j : ℕ) (ha : a < X.length) :
    ent4 (softmax4 X) a b i j = ent3 (softmax3 (X.getD a [])) b i j := by
  unfold ent4 softmax4
  rw [getD_map_of_lt _ X [] [] ha]

theorem getD_maskedFill4 {s mk : Tensor4} {a : ℕ} (ha1 : a < s.length)
    (ha2 : a < mk.length) :
    (maskedFill4 s mk).getD a [] = maskedFill3 (s.getD a []) (mk.getD a []) := by
  unfold maskedFill4
  rw [getD_zipWith_of_lt ha1 ha2 [] [] []]

theorem masked_softmax_core {X mk : Tensor3} {n tq tk : ℕ} (hX : T3WF n tq tk X)
    (hmk : T3WF n tq tk mk) {g i j j2 : ℕ} (hg : g < n) (hi : i < tq)
    (hj : j < tk) (hj2 : j2 < tk) (hzero : ent3 mk g i j = 0)
    (hallow : ent3 mk g i j2 ≠ 0) :
    ent3 (maskedFill3 X mk) g i j = -1e9 ∧
    ent3 (maskedFill3 X mk) g i j2 = ent3 X g i j2 ∧
    0 ≤ ent3 (softmax3 (maskedFill3 X mk)) g i j ∧
    ∀ ε : ℝ, Real.exp (-(1e9 : ℝ) - ent3 (maskedFill3 X mk) g i j2) ≤ ε →
      ent3 (softmax3 (maskedFill3 X mk)) g i j ≤ ε := by
  have hm : T3WF n tq tk (maskedFill3 X mk) := maskedFill3_WF hX hmk
  have hgX : g < X.length := by rw [hX.1]; exact hg
  have hgmk : g < mk.length := by rw [hmk.1]; exact hg
  have hgm : g < (maskedFill3 X mk).length := by rw [hm.1]; exact hg
  have hmatX : MatWF tq tk (X.getD g []) := hX.2 _ (getD_mem_of_lt hgX [])
  have hmatmk : MatWF tq tk (mk.getD g []) := hmk.2 _ (getD_mem_of_lt hgmk [])
  have hmatm : MatWF tq tk ((maskedFill3 X mk).getD g []) :=
    hm.2 _ (getD_mem_of_lt hgm [])
  have hiX : i < (X.getD g []).length := by rw [hmatX.1]; exact hi
  have himk : i < (mk.getD g []).length := by rw [hmatmk.1]; exact hi
  have him : i < ((maskedFill3 X mk).getD g []).length := by rw [hmatm.1]; exact hi
  have hrowX : ((X.getD g []).getD i []).length = tk :=
    hmatX.2 _ (getD_mem_of_lt hiX [])
  have hrowmk : ((mk.getD g []).getD i []).length = tk :=
    hmatmk.2 _ (getD_mem_of_lt himk [])
  have hrowm : (((maskedFill3 X mk).getD g []).getD i []).length = tk :=
    hmatm.2 _ (getD_mem_of_lt him [])
  have e1 : ent3 (maskedFill3 X mk) g i j =
      fillEntry (ent3 X g i j) (ent3 mk g i j) :=
    ent3_maskedFill3 hgX hgmk hiX himk (by omega) (by omega)
  have e2 : ent3 (maskedFill3 X mk) g i j2 =
      fillEntry (ent3 X g i j2) (ent3 mk g i j2) :=
    ent3_maskedFill3 hgX hgmk hiX himk (by omega) (by omega)
  have c1 : ent3 (maskedFill3 X mk) g i j = -1e9 := by
    rw [e1, hzero]
    simp [fillEntry]
  have c2 : ent3 (maskedFill3 X mk) g i j2 = ent3 X g i j2 := by
    rw [e2]
    unfold fillEntry
    rw [if_neg hallow]
  have hent : ent3 (softmax3 (maskedFill3 X mk)) g i j =
      (softmaxRow (((maskedFill3 X mk).getD g []).getD i [])).getD j 0 :=
    ent3_softmax3 j hgm him
  have hcore := @softmaxRow_masked_entry
    (((maskedFill3 X mk).getD g []).getD i []) j j2 (by omega) (by omega) c1
  refine ⟨c1, c2, ?_, ?_⟩
  · rw [hent]
    exact hcore.1
  · intro ε hε
    rw [hent]
    exact le_trans hcore.2 hε

/-- C4: in both `MultiHeadAttention.forward` and `SelfAttention.forward`,
when a mask is supplied, every score entry at a position where the mask is
0 is set to `-1e9` before the softmax (allowed positions keep their scaled
score), the post-softmax weight of a disallowed position is nonnegative,
and — provided the row has an allowed position `j2` — that weight is
within `ε` of 0 for every `ε` at least `exp (-1e9 - s)`, where `s` is the
(bounded) masked score at `j2`. -/
theorem C4_mask_forces_vanishing_weight
    {p : MultiHeadAttention} (hp : MHAWF p) {B Tq Tk : ℕ}
    {query key : Tensor3} {mk : Tensor3}
    (hq : T3WF B Tq p.d_model query) (hk : T3WF B Tk p.d_model key)
    (hmk : T3WF (B * p.num_heads) Tq Tk mk)
    (hB : 0 < B) (hTq : 0 < Tq) (hTk : 0 < Tk)
    {g i j j2 : ℕ} (hg : g < B * p.num_heads) (hi : i < Tq) (hj : j < Tk)
    (hj2 : j2 < Tk) (hzero : ent3 mk g i j = 0) (hallow : ent3 mk g i j2 ≠ 0)
    {sa : SelfAttention} (hsa : SAWF sa) {B2 T2 : ℕ} {x : Tensor3}
    {bias : Option Tensor3} {mk4 : Tensor4}
    (hx : T3WF B2 T2 sa.hidden_dim x) (hbias : OptT3WF B2 T2 sa.hidden_dim bias)
    (hmk4 : T4WF B2 sa.num_heads T2 T2 mk4) (hB2 : 0 < B2) (hT2 : 0 < T2)
    {a2 g2 i2 j3 j4 : ℕ} (ha2 : a2 < B2) (hg2 : g2 < sa.num_heads)
    (hi2 : i2 < T2) (hj3 : j3 < T2) (hj4 : j4 < T2)
    (hzero2 : ent4 mk4 a2 g2 i2 j3 = 0) (hallow2 : ent4 mk4 a2 g2 i2 j4 ≠ 0) :
    (ent3 (p.maskedScores query key (some mk)) g i j = -1e9 ∧
     ent3 (p.maskedScores query key (some mk)) g i j2 =
       ent3 (p.scaledScores query key) g i j2 ∧
     0 ≤ ent3 (p.weights query key (some mk)) g i j ∧
     ∀ ε : ℝ,
       Real.exp (-(1e9 : ℝ) - ent3 (p.maskedScores query key (some mk)) g i j2) ≤ ε →
       ent3 (p.weights query key (some mk)) g i j ≤ ε) ∧
    (ent4 (sa.maskedScores x bias (some mk4)) a2 g2 i2 j3 = -1e9 ∧
     ent4 (sa.maskedScores x bias (some mk4)) a2 g2 i2 j4 =
       ent4 (sa.scores x bias) a2 g2 i2 j4 ∧
     0 ≤ ent4 (sa.attnWeights x bias (some mk4)) a2 g2 i2 j3 ∧
     ∀ ε : ℝ,
       Real.exp (-(1e9 : ℝ) - ent4 (sa.maskedScores x bias (some mk4)) a2 g2 i2 j4) ≤ ε →
       ent4 (sa.attnWeights x bias (some mk4)) a2 g2 i2 j3 ≤ ε) := by
  constructor
  · have hsc : T3WF (B * p.num_heads) Tq Tk (p.scaledScores query key) :=
      MHA_scaledScores_WF hp rfl hq hk hB hTq hTk
    exact masked_softmax_core hsc hmk hg hi hj hj2 hzero hallow
  · have hsc4 : T4WF B2 sa.num_heads T2 T2 (sa.scores x bias) :=
      SA_scores_WF hsa hx hbias hB2 hT2
    have ha2s : a2 < (sa.scores x bias).length := by rw [hsc4.1]; exact ha2
    have ha2m : a2 < mk4.length := by rw [hmk4.1]; exact ha2
    have hscg : T3WF sa.num_heads T2 T2 ((sa.scores x bias).getD a2 []) :=
      hsc4.2 _ (getD_mem_of_lt ha2s [])
    have hmkg : T3WF sa.num_heads T2 T2 (mk4.getD a2 []) :=
      hmk4.2 _ (getD_mem_of_lt ha2m [])
    have hcore := masked_softmax_core hscg hmkg hg2 hi2 hj3 hj4 hzero2 hallow2
    have hf4 : T4WF B2 sa.num_heads T2 T2 (maskedFill4 (sa.scores x bias) mk4) :=
      maskedFill4_WF hsc4 hmk4
    have ha2f : a2 < (maskedFill4 (sa.scores x bias) mk4).length := by
      rw [hf4.1]; exact ha2
    have hms3 : ent4 (sa.maskedScores x bias (some mk4)) a2 g2 i2 j3 =
        ent3 (maskedFill3 ((sa.scores x bias).getD a2 []) (mk4.getD a2 [])) g2 i2 j3 := by
      show ent4 (maskedFill4 (sa.scores x bias) mk4) a2 g2 i2 j3 = _
      unfold ent4
      rw [getD_maskedFill4 ha2s ha2m]
    have hms4 : ent4 (sa.maskedScores x bias (some mk4)) a2 g2 i2 j4 =
        ent3 (maskedFill3 ((sa.scores x bias).getD a2 []) (mk4.getD a2 [])) g2 i2 j4 := by
      show ent4 (maskedFill4 (sa.scores x bias) mk4) a2 g2 i2 j4 = _
      unfold ent4
      rw [getD_maskedFill4 ha2s ha2m]
    have hwts : ∀ jx : ℕ, ent4 (sa.attnWeights x bias (some mk4)) a2 g2 i2 jx =
        ent3 (softmax3 (maskedFill3 ((sa.scores x bias).getD a2 []) (mk4.getD a2 []))) g2 i2 jx := by
      intro jx
      show ent4 (softmax4 (maskedFill4 (sa.scores x bias) mk4)) a2 g2 i2 jx = _
      rw [ent4_softmax4 _ _ _ ha2f, getD_maskedFill4 ha2s ha2m]
    refine ⟨?_, ?_, ?_, ?_⟩
    · rw [hms3]
      exact hcore.1
    · rw [hms4]
      show _ = ent3 ((sa.scores x bias).getD a2 []) g2 i2 j4
      exact hcore.2.1
    · rw [hwts j3]
      exact hcore.2.2.1
    · intro ε hε
      rw [hwts j3]
      rw [hms4] at hε
      exact hcore.2.2.2 ε hε

/-- Witness for C4: one-dimensional single-head attention over two
timesteps, masking key position 0 of query position 0 while key position 1
stays allowed. -/
theorem C4_mask_forces_vanishing_weight_witness :
    (T3WF 1 2 2 ([[[0, 1], [1, 1]]] : Tensor3) ∧
      ent3 ([[[0, 1], [1, 1]]] : Tensor3) 0 0 0 = 0 ∧
      ent3 ([[[0, 1], [1, 1]]] : Tensor3) 0 0 1 ≠ 0) ∧
    ent3 (MultiHeadAttention.maskedScores
      ⟨1, 1, ⟨[[1]], [0]⟩, ⟨[[1]], [0]⟩, ⟨[[1]], [0]⟩, ⟨[[1]], [0]⟩⟩
      [[[0], [0]]] [[[0], [0]]] (some [[[0, 1], [1, 1]]])) 0 0 0 = -1e9 ∧
    ent4 (SelfAttention.maskedScores
      ⟨1, 1, ⟨[[1]], [0]⟩, ⟨[[1]], [0]⟩, ⟨[[1]], [0]⟩, ⟨[[1]], [0]⟩⟩
      [[[0], [0]]] none (some [[[[0, 1], [1, 1]]]])) 0 0 0 0 = -1e9 :=
  ⟨⟨by decide, rfl, by simp [ent3]⟩,
    (@C4_mask_forces_vanishing_weight
      ⟨1, 1, ⟨[[1]], [0]⟩, ⟨[[1]], [0]⟩, ⟨[[1]], [0]⟩, ⟨[[1]], [0]⟩⟩
      (by decide) 1 2 2 [[[0], [0]]] [[[0], [0]]] [[[0, 1], [1, 1]]]
      (by decide) (by decide) (by decide) (by decide) (by decide) (by decide)
      0 0 0 1 (by decide) (by decide) (by decide) (by decide) rfl
      (by simp [ent3])
      ⟨1, 1, ⟨[[1]], [0]⟩, ⟨[[1]], [0]⟩, ⟨[[1]], [0]⟩, ⟨[[1]], [0]⟩⟩
      (by decide) 1 2 [[[0], [0]]] none [[[[0, 1], [1, 1]]]]
      (by decide) trivial (by decide) (by decide) (by decide)
      0 0 0 0 1 (by decide) (by decide) (by decide) (by decide) (by decide)
      rfl (by simp [ent4, ent3])).1.1,
    (@C4_mask_forces_vanishing_weight
      ⟨1, 1, ⟨[[1]], [0]⟩, ⟨[[1]], [0]⟩, ⟨[[1]], [0]⟩, ⟨[[1]], [0]⟩⟩
      (by decide) 1 2 2 [[[0], [0]]] [[[0], [0]]] [[[0, 1], [1, 1]]]
      (by decide) (by decide) (by decide) (by decide) (by decide) (by decide)
      0 0 0 1 (by decide) (by decide) (by decide) (by decide) rfl
      (by simp [ent3])
      ⟨1, 1, ⟨[[1]], [0]⟩, ⟨[[1]], [0]⟩, ⟨[[1]], [0]⟩, ⟨[[1]], [0]⟩⟩
      (by decide) 1 2 [[[0], [0]]] none [[[[0, 1], [1, 1]]]]
      (by decide) trivial (by decide) (by decide) (by decide)
      0 0 0 0 1 (by decide) (by decide) (by decide) (by decide) (by decide)
      rfl (by simp [ent4, ent3])).2.1⟩

theorem avg_row_self (r : Vec) : (List.zipWith (· + ·) r r).map (fun a => a / 2) = r := by
  rw [List.zipWith_same, List.map_map]
  conv_rhs => rw [← List.map_id r]
  apply List.map_congr_left
  intro a _
  simp only [Function.comp_apply, id_eq]
  ring

theorem avg_mat_self (m : Mat) :
    (addM m m).map (fun r => r.map (fun a => a / 2)) = m := by
  unfold addM
  rw [List.zipWith_same, List.map_map]
  conv_rhs => rw [← List.map_id m]
  apply List.map_congr_left
  intro r _
  simp only [Function.comp_apply, id_eq]
  exact avg_row_self r

theorem halve3_add3_self (t : Tensor3) : halve3 (add3 t t) = t := by
  unfold halve3 add3
  rw [List.zipWith_same, List.map_map]
  conv_rhs => rw [← List.map_id t]
  apply List.map_congr_left
  intro m _
  simp only [Function.comp_apply, id_eq]
  exact avg_mat_self m

/-- C6: with dropout disabled, `TransformerDecoderLayer.forward` called
with a second memory tensor equal to the first returns exactly the output
of the single-memory call: the second cross-attention branch reproduces
the first and averaging two equal tensors is the identity. -/
theorem C6_identical_memories_average_noop (p : TransformerDecoderLayer)
    (tgt memory : Tensor3) (tgt_mask memory_mask : Option Tensor3) :
    p.forward tgt memory (some memory) tgt_mask memory_mask =
      p.forward tgt memory none tgt_mask memory_mask := by
  simp only [TransformerDecoderLayer.forward]
  rw [halve3_add3_self]

/-- C7: in `SelfAttention.forward`, the query tensor entering the head
split is the sum of the projections of the main input and of the bias
input through the same `linear_q` layer when a bias is supplied (just the
main input's projection otherwise), and the bias feeds the computation
only through that query projection: any two bias arguments yielding the
same query projection yield identical forward outputs, so the key and
value paths are bias-independent. -/
theorem C7_bias_adds_to_query_only (p : SelfAttention) (x b : Tensor3)
    (mask : Option Tensor4) :
    p.qproj x (some b) = add3 (linearMap3 p.linear_q x) (linearMap3 p.linear_q b) ∧
    p.qproj x none = linearMap3 p.linear_q x ∧
    ∀ b1 b2 : Option Tensor3, p.qproj x b1 = p.qproj x b2 →
      SelfAttention.forward p x b1 mask = SelfAttention.forward p x b2 mask := by
  refine ⟨rfl, rfl, ?_⟩
  intro b1 b2 h
  unfold SelfAttention.forward SelfAttention.attnWeights
    SelfAttention.maskedScores SelfAttention.scores
  rw [h]

/-- C10 (implicit): `HierarchicalTemporalAttention.forward` accepts `bias`
and `mask` but its result is completely independent of them — it always
runs its local and global attention unmasked and unbiased — and therefore
the `bias` and `mask` that `TransformerEncoder.forward` passes down have
no effect on the encoder output either. -/
theorem C10_bias_mask_have_no_effect (p : HierarchicalTemporalAttention)
    (q : TransformerEncoder) (x : Tensor3) (b1 b2 m1 m2 : Option Tensor3) :
    p.forward x b1 m1 = p.forward x b2 m2 ∧
    p.forward x b1 m1 = p.forward x none none ∧
    q.forward x b1 m1 = q.forward x b2 m2 :=
  ⟨rfl, rfl, rfl⟩

/-- Witness for C7 on a one-dimensional single-head `SelfAttention`. -/
theorem C7_bias_adds_to_query_only_witness :
    SelfAttention.qproj
        ⟨1, 1, ⟨[[1]], [0]⟩, ⟨[[1]], [0]⟩, ⟨[[1]], [0]⟩, ⟨[[1]], [0]⟩⟩
        [[[0]]] (some [[[1]]]) =
      add3 (linearMap3 ⟨[[1]], [0]⟩ [[[0]]]) (linearMap3 ⟨[[1]], [0]⟩ [[[1]]]) ∧
    SelfAttention.forward
        ⟨1, 1, ⟨[[1]], [0]⟩, ⟨[[1]], [0]⟩, ⟨[[1]], [0]⟩, ⟨[[1]], [0]⟩⟩
        [[[0]]] none none =
      SelfAttention.forward
        ⟨1, 1, ⟨[[1]], [0]⟩, ⟨[[1]], [0]⟩, ⟨[[1]], [0]⟩, ⟨[[1]], [0]⟩⟩
        [[[0]]] none none :=
  ⟨(C7_bias_adds_to_query_only
      ⟨1, 1, ⟨[[1]], [0]⟩, ⟨[[1]], [0]⟩, ⟨[[1]], [0]⟩, ⟨[[1]], [0]⟩⟩
      [[[0]]] [[[1]]] none).1,
    (C7_bias_adds_to_query_only
      ⟨1, 1, ⟨[[1]], [0]⟩, ⟨[[1]], [0]⟩, ⟨[[1]], [0]⟩, ⟨[[1]], [0]⟩⟩
      [[[0]]] [[[1]]] none).2.2 none none rfl⟩

/-! ### Shape lemmas for the remaining components (claim C8) -/

theorem lnMap3_WF {b t d : ℕ} {ln : LayerNorm} {x : Tensor3} (hln : LNWF d ln)
    (hx : T3WF b t d x) : T3WF b t d (lnMap3 ln x) := by
  constructor
  · simp [lnMap3, hx.1]
  · intro m hm
    rcases List.mem_map.1 hm with ⟨m0, hm0, rfl⟩
    constructor
    · simp [(hx.2 m0 hm0).1]
    · intro r hr
      rcases List.mem_map.1 hr with ⟨r0, hr0, rfl⟩
      simp [applyLN, List.length_zipWith, hln.1, hln.2, (hx.2 m0 hm0).2 r0 hr0]

theorem geluMap3_WF {b t d : ℕ} {x : Tensor3} (hx : T3WF b t d x) :
    T3WF b t d (geluMap3 x) := by
  constructor
  · simp [geluMap3, hx.1]
  · intro m hm
    rcases List.mem_map.1 hm with ⟨m0, hm0, rfl⟩
    constructor
    · simp [(hx.2 m0 hm0).1]
    · intro r hr
      rcases List.mem_map.1 hr with ⟨r0, hr0, rfl⟩
      simp [(hx.2 m0 hm0).2 r0 hr0]

theorem ffMap3_WF {b t d dff : ℕ} {l1 l2 : Linear} {x : Tensor3}
    (h1 : LinearWF d dff l1) (h2 : LinearWF dff d l2) (hx : T3WF b t d x) :
    T3WF b t d (ffMap3 l1 l2 x) := by
  constructor
  · simp [ffMap3, hx.1]
  · intro m hm
    rcases List.mem_map.1 hm with ⟨m0, hm0, rfl⟩
    constructor
    · simp [(hx.2 m0 hm0).1]
    · intro r hr
      rcases List.mem_map.1 hr with ⟨r0, hr0, rfl⟩
      simp [feedForward, dropout]
      exact applyLinear_length h2 _

theorem halve3_WF {b t d : ℕ} {x : Tensor3} (hx : T3WF b t d x) :
    T3WF b t d (halve3 x) := by
  constructor
  · simp [halve3, hx.1]
  · intro m hm
    rcases List.mem_map.1 hm with ⟨m0, hm0, rfl⟩
    constructor
    · simp [(hx.2 m0 hm0).1]
    · intro r hr
      rcases List.mem_map.1 hr with ⟨r0, hr0, rfl⟩
      simp [(hx.2 m0 hm0).2 r0 hr0]

theorem cat2_WF {b t d e : ℕ} {x y : Tensor3} (hx : T3WF b t d x)
    (hy : T3WF b t e y) : T3WF b t (d + e) (cat2 x y) := by
  constructor
  · simp [cat2, List.length_zipWith, hx.1, hy.1]
  · intro m hm
    rcases mem_zipWith hm with ⟨a, ha, b2, hb, rfl⟩
    constructor
    · simp [List.length_zipWith, (hx.2 a ha).1, (hy.2 b2 hb).1]
    · intro r hr
      rcases mem_zipWith hr with ⟨ra, hra, rb, hrb, rfl⟩
      simp [(hx.2 a ha).2 ra hra, (hy.2 b2 hb).2 rb hrb]

theorem catAll_WF {b t d : ℕ} :
    ∀ {L : List Tensor3}, L ≠ [] → (∀ u ∈ L, T3WF b t d u) →
      T3WF b t (L.length * d) (catAll L)
  | [], h, _ => absurd rfl h
  | [u], _, hu => by
    simp only [catAll, List.length_singleton, one_mul]
    exact hu u (by simp)
  | u :: v :: rest, _, hu => by
    have ih := @catAll_WF b t d (v :: rest) (by simp)
      (fun w hw => hu w (by simp [hw]))
    have h2 := cat2_WF (hu u (by simp)) ih
    have harith : d + (v :: rest).length * d = (u :: v :: rest).length * d := by
      simp [List.length_cons]
      ring
    show T3WF b t ((u :: v :: rest).length * d) (catAll (u :: v :: rest))
    rw [← harith]
    exact h2

theorem flatten4_length {a n t d : ℕ} {U : Tensor4} (h : T4WF a n t d U) :
    (flatten4 U).length = a * n * (t * d) := by
  rw [← flatten3_flatten4, flatten3_length (flatten_T4WF h)]

theorem view3full_WF {b t d : ℕ} {flat : Vec} (hlen : flat.length = b * (t * d))
    (hd : 0 < d) (ht : 0 < t) : T3WF b t d (view3full t d flat) :=
  chunks_T3WF hd ht hlen

theorem SA_forward_WF {sa : SelfAttention} (hsa : SAWF sa) {B T : ℕ}
    {x : Tensor3} {bias : Option Tensor3} {mask : Option Tensor4}
    (hx : T3WF B T sa.hidden_dim x) (hbias : OptT3WF B T sa.hidden_dim bias)
    (hmask : OptT4WF B sa.num_heads T T mask) (hB : 0 < B) (hT : 0 < T) :
    T3WF B T sa.hidden_dim (SelfAttention.forward sa x bias mask).1 := by
  have hH : 0 < sa.num_heads := hsa.2.2.2.2.1
  have hM : 0 < sa.head_dim := SA_head_dim_pos hsa
  have hDm : sa.hidden_dim = sa.num_heads * sa.head_dim :=
    hidden_dim_eq_heads_mul_head_dim hsa
  have hw4 : T4WF B sa.num_heads T T (sa.attnWeights x bias mask) := by
    show T4WF B sa.num_heads T T (dropout (softmax4 (sa.maskedScores x bias mask)))
    exact softmax4_WF (SA_maskedScores_WF hsa hx hbias hmask hB hT)
  simp only [SelfAttention.forward, dropout]
  rw [headLen_of_T3WF hx hB]
  have hv4 : T4WF B sa.num_heads T sa.head_dim
      (view4 sa.num_heads T sa.head_dim (linearMap3 sa.linear_v x)) :=
    view4_T4WF (linearMap3_WF hsa.2.2.1 hx) hDm hH hM hT
  have hatt := zipWith2_matmulR_WF hw4 hv4 hT
  apply linearMap3_WF hsa.2.2.2.1
  apply view3full_WF _ hsa.2.2.2.2.2.1 hT
  rw [flatten4_length hatt, hDm]
  ring

theorem padTime_rows {p d : ℕ} {m : Mat} (h : ∀ r ∈ m, r.length = d) :
    ∀ r ∈ padTime p d m, r.length = d := by
  intro r hr
  unfold padTime at hr
  rcases List.mem_append.1 hr with h1 | h1
  · rcases List.mem_append.1 h1 with h2 | h2
    · rw [List.eq_of_mem_replicate h2]
      simp
    · exact h r h2
  · rw [List.eq_of_mem_replicate h1]
    simp

theorem windowsOf_padTime_WF {w d t : ℕ} {m : Mat} (hw : Odd w) (hm : MatWF t d m)
    (ht : 1 ≤ t) :
    (windowsOf w (padTime ((w - 1) / 2) d m)).length = t ∧
    ∀ win ∈ windowsOf w (padTime ((w - 1) / 2) d m), MatWF w d win := by
  rcases hw with ⟨k, hk⟩
  have hpadlen : (padTime ((w - 1) / 2) d m).length = t + 2 * ((w - 1) / 2) := by
    simp [padTime, hm.1]
    omega
  constructor
  · simp [windowsOf, hpadlen]
    omega
  · intro win hwin
    rcases List.mem_map.1 hwin with ⟨j, hj, rfl⟩
    have hjr := List.mem_range.1 hj
    rw [hpadlen] at hjr
    constructor
    · simp [List.length_take, List.length_drop, hpadlen]
      omega
    · intro r hr
      exact padTime_rows hm.2 r (List.mem_of_mem_drop (List.mem_of_mem_take hr))

theorem innerD_of_T3WF {b t d : ℕ} {x : Tensor3} (h : T3WF b t d x) (hb : 0 < b)
    (ht : 0 < t) : ((x.head?.getD []).head?.getD []).length = d := by
  rcases x with _ | ⟨m, rest⟩
  · exact absurd h.1 (by simp; omega)
  have hm := h.2 m (by simp)
  rcases m with _ | ⟨r, rr⟩
  · exact absurd hm.1 (by simp; omega)
  exact hm.2 r (by simp)

theorem meanRows_length {t d : ℕ} {m : Mat} (h : MatWF t d m) (ht : 0 < t) :
    (meanRows m).length = d := by
  simp [meanRows, transposeM_length, headLen_of_MatWF h ht]

theorem mem_of_mem_chunks {α : Type*} {n : ℕ} {l : List α} {c : List α}
    (hc : c ∈ chunks n l) {a : α} (ha : a ∈ c) : a ∈ l := by
  rcases List.mem_map.1 hc with ⟨i, _, rfl⟩
  exact List.mem_of_mem_drop (List.mem_of_mem_take ha)

theorem HTA_levelOut_WF {p : HierarchicalTemporalAttention} (hp : HTAWF p)
    {B T : ℕ} {x : Tensor3} (hx : T3WF B T p.hidden_dim x) (hB : 0 < B)
    (hT : 0 < T) {level : ℕ} (hlevel : level < p.num_levels) :
    T3WF B T p.hidden_dim (p.levelOut x level) := by
  have hwlen : level < p.window_sizes.length := lt_of_lt_of_le hlevel hp.2.1
  have hwmem : p.window_sizes.getD level 0 ∈ p.window_sizes.take p.num_levels := by
    rw [List.getD_eq_getElem _ _ hwlen]
    refine List.mem_iff_getElem.2 ⟨level, ?_, ?_⟩
    · simp [List.length_take]
      omega
    · rw [List.getElem_take]
  have hwodd : Odd (p.window_sizes.getD level 0) := hp.2.2.1 _ hwmem
  have hwpos : 0 < p.window_sizes.getD level 0 := hwodd.pos
  have hattlen : level < p.local_attentions.length := by rw [hp.1]; exact hlevel
  have hmha := hp.2.2.2.1 _ (getD_mem_of_lt hattlen default)
  simp only [HierarchicalTemporalAttention.levelOut]
  rw [headLen_of_T3WF hx hB, innerD_of_T3WF hx hB hT]
  have hunf : T3WF (B * T) (p.window_sizes.getD level 0) p.hidden_dim
      (((x.map (padTime ((p.window_sizes.getD level 0 - 1) / 2) p.hidden_dim)).map
        (windowsOf (p.window_sizes.getD level 0))).flatten) := by
    constructor
    · have hblocks : ∀ l ∈ (x.map
          (padTime ((p.window_sizes.getD level 0 - 1) / 2) p.hidden_dim)).map
          (windowsOf (p.window_sizes.getD level 0)), l.length = T := by
        intro l hl
        rcases List.mem_map.1 hl with ⟨pm, hpm, rfl⟩
        rcases List.mem_map.1 hpm with ⟨m0, hm0, rfl⟩
        exact (windowsOf_padTime_WF hwodd (hx.2 m0 hm0) hT).1
      rw [flatten_length_of_blocks hblocks]
      simp [hx.1]
    · intro mm hmm
      rcases List.mem_flatten.1 hmm with ⟨wl, hwl, hmw⟩
      rcases List.mem_map.1 hwl with ⟨pm, hpm, rfl⟩
      rcases List.mem_map.1 hpm with ⟨m0, hm0, rfl⟩
      exact (windowsOf_padTime_WF hwodd (hx.2 m0 hm0) hT).2 mm hmw
  have hlev : T3WF (B * T) (p.window_sizes.getD level 0) p.hidden_dim
      ((p.local_attentions.getD level default).forward
        (((x.map (padTime ((p.window_sizes.getD level 0 - 1) / 2) p.hidden_dim)).map
          (windowsOf (p.window_sizes.getD level 0))).flatten)
        (((x.map (padTime ((p.window_sizes.getD level 0 - 1) / 2) p.hidden_dim)).map
          (windowsOf (p.window_sizes.getD level 0))).flatten)
        (((x.map (padTime ((p.window_sizes.getD level 0 - 1) / 2) p.hidden_dim)).map
          (windowsOf (p.window_sizes.getD level 0))).flatten) none) :=
    MHA_forward_WF hmha.2.2 hmha.2.1 hunf hunf hunf trivial (by positivity)
      hwpos hwpos
  constructor
  · rw [List.length_map, length_chunks, hlev.1, Nat.mul_div_cancel _ hT]
  · intro mm hmm
    rcases List.mem_map.1 hmm with ⟨bt, hbt, rfl⟩
    constructor
    · rw [List.length_map]
      exact length_mem_chunks hT hbt
    · intro r hr
      rcases List.mem_map.1 hr with ⟨m1, hm1, rfl⟩
      exact meanRows_length (hlev.2 m1 (mem_of_mem_chunks hbt hm1)) hwpos

theorem HTA_forward_WF {p : HierarchicalTemporalAttention} (hp : HTAWF p)
    {B T : ℕ} {x : Tensor3} (hx : T3WF B T p.hidden_dim x) (hB : 0 < B)
    (hT : 0 < T) (bias mask : Option Tensor3) :
    T3WF B T p.hidden_dim (p.forward x bias mask).1 := by
  simp only [HierarchicalTemporalAttention.forward, dropout]
  apply linearMap3_WF hp.2.2.2.2.2.2.2
  have hcat := @catAll_WF B T p.hidden_dim
    ((List.range p.num_levels).map (p.levelOut x) ++
      [p.global_attention.forward x x x none])
    (by simp)
    (by
      intro u hu
      rcases List.mem_append.1 hu with h1 | h1
      · rcases List.mem_map.1 h1 with ⟨level, hlev, rfl⟩
        exact HTA_levelOut_WF hp hx hB hT (List.mem_range.1 hlev)
      · rw [List.mem_singleton.1 h1]
        exact MHA_forward_WF hp.2.2.2.2.2.2.1 hp.2.2.2.2.2.1 hx hx hx trivial
          hB hT hT)
  exact hcat

theorem foldl_preserve {α β : Type*} {P : α → Prop} (f : α → β → α) :
    ∀ (l : List β) (x : α), P x → (∀ a b, P a → b ∈ l → P (f a b)) →
      P (l.foldl f x)
  | [], x, hx, _ => hx
  | b :: l, x, hx, h =>
    foldl_preserve f l (f x b) (h x b hx (by simp))
      (fun a c ha hc => h a c ha (by simp [hc]))

theorem Enc_forward_WF {q : TransformerEncoder} {D : ℕ} (hq : EncWF D q)
    {B T : ℕ} {x : Tensor3} (hx : T3WF B T D x) (hB : 0 < B) (hT : 0 < T)
    (bias mask : Option Tensor3) :
    T3WF B T D (q.forward x bias mask).1 := by
  simp only [TransformerEncoder.forward]
  apply foldl_preserve _ q.layers x hx
  intro a layer ha hlayer
  have hl := hq layer hlayer
  have ha2 : T3WF B T layer.temporal_attention.hidden_dim a := by
    rw [hl.1]
    exact ha
  have hattn : T3WF B T D (layer.temporal_attention.forward a bias mask).1 := by
    rw [← hl.1]
    exact HTA_forward_WF hl.2.1 ha2 hB hT bias mask
  have hmid : T3WF B T D (lnMap3 layer.norm1 (add3 a (dropout
      (layer.temporal_attention.forward a bias mask).1))) :=
    lnMap3_WF hl.2.2.2.2.1 (add3_WF ha hattn)
  exact lnMap3_WF hl.2.2.2.2.2 (add3_WF hmid
    (linearMap3_WF hl.2.2.2.1 (geluMap3_WF (linearMap3_WF hl.2.2.1 hmid))))

theorem DecLayer_forward_WF {p : TransformerDecoderLayer} {h d dff B T Tm : ℕ}
    (hp : DecLayerWF h d dff p) {tgt memory : Tensor3} {memo2 : Option Tensor3}
    {tgt_mask memory_mask : Option Tensor3}
    (htgt : T3WF B T d tgt) (hmem : T3WF B Tm d memory)
    (hmemo2 : OptT3WF B Tm d memo2)
    (htm : OptT3WF (B * h) T T tgt_mask)
    (hmm : OptT3WF (B * h) T Tm memory_mask)
    (hB : 0 < B) (hT : 0 < T) (hTm : 0 < Tm) :
    T3WF B T d (p.forward tgt memory memo2 tgt_mask memory_mask) := by
  have htgt1 : T3WF B T p.self_attention.d_model tgt := by
    rw [hp.2.1]
    exact htgt
  have htm1 : OptT3WF (B * p.self_attention.num_heads) T T tgt_mask := by
    rw [hp.1]
    exact htm
  have hself : T3WF B T d (p.self_attention.forward tgt tgt tgt tgt_mask) := by
    rw [← hp.2.1]
    exact MHA_forward_WF hp.2.2.1 rfl htgt1 htgt1 htgt1 htm1 hB hT hT
  simp only [TransformerDecoderLayer.forward, dropout]
  set t2 := lnMap3 p.self_attention_norm
    (add3 tgt (p.self_attention.forward tgt tgt tgt tgt_mask)) with ht2
  have h2 : T3WF B T d t2 := lnMap3_WF hp.2.2.2.1 (add3_WF htgt hself)
  have hencf : ∀ memX : Tensor3, T3WF B Tm d memX →
      T3WF B T d (lnMap3 p.enc_attention_norm
        (add3 t2 (p.enc_attention.forward t2 memX memX memory_mask))) := by
    intro memX hmemX
    have ht2a : T3WF B T p.enc_attention.d_model t2 := by
      rw [hp.2.2.2.2.2.1]
      exact h2
    have hmemXa : T3WF B Tm p.enc_attention.d_model memX := by
      rw [hp.2.2.2.2.2.1]
      exact hmemX
    have hmm1 : OptT3WF (B * p.enc_attention.num_heads) T Tm memory_mask := by
      rw [hp.2.2.2.2.1]
      exact hmm
    have henc : T3WF B T d (p.enc_attention.forward t2 memX memX memory_mask) := by
      rw [← hp.2.2.2.2.2.1]
      exact MHA_forward_WF hp.2.2.2.2.2.2.1 rfl ht2a hmemXa hmemXa hmm1 hB hT hTm
    exact lnMap3_WF hp.2.2.2.2.2.2.2.1 (add3_WF h2 henc)
  rcases memo2 with _ | m2
  · exact lnMap3_WF hp.2.2.2.2.2.2.2.2.2.2
      (add3_WF (hencf memory hmem)
        (ffMap3_WF hp.2.2.2.2.2.2.2.2.1 hp.2.2.2.2.2.2.2.2.2.1 (hencf memory hmem)))
  · have hm2 : T3WF B Tm d m2 := hmemo2
    have havg := halve3_WF (add3_WF (hencf memory hmem) (hencf m2 hm2))
    exact lnMap3_WF hp.2.2.2.2.2.2.2.2.2.2
      (add3_WF havg
        (ffMap3_WF hp.2.2.2.2.2.2.2.2.1 hp.2.2.2.2.2.2.2.2.2.1 havg))

theorem Dec_forward_WF {p : TransformerDecoder} {h d dff B T Tm : ℕ}
    (hp : DecWF h d dff p) {tgt memory : Tensor3}
    {memo2 embedding : Option Tensor3} {tgt_mask memory_mask : Option Tensor3}
    (htgt : T3WF B T d tgt) (hmem : T3WF B Tm d memory)
    (hmemo2 : OptT3WF B Tm d memo2) (hemb : OptT3WF B T d embedding)
    (htm : OptT3WF (B * h) T T tgt_mask)
    (hmm : OptT3WF (B * h) T Tm memory_mask)
    (hB : 0 < B) (hT : 0 < T) (hTm : 0 < Tm) :
    T3WF B T d (p.forward tgt memory memo2 embedding tgt_mask memory_mask) := by
  simp only [TransformerDecoder.forward]
  apply foldl_preserve _ (List.range p.num_layers) tgt htgt
  intro a i ha hi
  have hiL : i < p.layers.length := by
    rw [← hp.1]
    exact List.mem_range.1 hi
  have hlay := hp.2.1 _ (getD_mem_of_lt hiL default)
  have hnm1 : T3WF B Tm d (lnMap3 p.norm_att memory) := lnMap3_WF hp.2.2 hmem
  rcases embedding with _ | e
  · rcases memo2 with _ | m2
    · exact DecLayer_forward_WF hlay (lnMap3_WF hp.2.2 ha) hnm1 hnm1 htm hmm
        hB hT hTm
    · exact DecLayer_forward_WF hlay (lnMap3_WF hp.2.2 ha) hnm1
        (lnMap3_WF hp.2.2 (show T3WF B Tm d m2 from hmemo2)) htm hmm hB hT hTm
  · rcases memo2 with _ | m2
    · exact DecLayer_forward_WF hlay
        (lnMap3_WF hp.2.2 (add3_WF ha (show T3WF B T d e from hemb))) hnm1 hnm1
        htm hmm hB hT hTm
    · exact DecLayer_forward_WF hlay
        (lnMap3_WF hp.2.2 (add3_WF ha (show T3WF B T d e from hemb))) hnm1
        (lnMap3_WF hp.2.2 (show T3WF B Tm d m2 from hmemo2)) htm hmm hB hT hTm

/-- C8: with well-formed parameters, every component preserves the batch,
sequence and feature dimensions of its primary sequence input: for inputs
of shape `(B, T, D)` (and decoder memories of shape `(B, T_mem, D)`), the
primary outputs of `SelfAttention`, `HierarchicalTemporalAttention`,
`TransformerEncoder`, `TransformerDecoderLayer` and `TransformerDecoder`
all have shape `(B, T, D)`. -/
theorem C8_shape_invariance {D : ℕ}
    {sa : SelfAttention} (hsa : SAWF sa) (hsad : sa.hidden_dim = D)
    {hta : HierarchicalTemporalAttention} (hhta : HTAWF hta)
    (hhtad : hta.hidden_dim = D)
    {enc : TransformerEncoder} (henc : EncWF D enc)
    {h1 dff1 h2 dff2 : ℕ}
    {dl : TransformerDecoderLayer} (hdl : DecLayerWF h1 D dff1 dl)
    {dec : TransformerDecoder} (hdec : DecWF h2 D dff2 dec)
    {B T Tm : ℕ} {x tgt memory : Tensor3}
    (hx : T3WF B T D x) (htgt : T3WF B T D tgt) (hmem : T3WF B Tm D memory)
    {bias : Option Tensor3} (hbias : OptT3WF B T D bias)
    {mask4 : Option Tensor4} (hmask4 : OptT4WF B sa.num_heads T T mask4)
    {memo2 embedding : Option Tensor3} (hmemo2 : OptT3WF B Tm D memo2)
    (hemb : OptT3WF B T D embedding)
    {tgt_mask memory_mask : Option Tensor3}
    (htm1 : OptT3WF (B * h1) T T tgt_mask)
    (hmm1 : OptT3WF (B * h1) T Tm memory_mask)
    (htm2 : OptT3WF (B * h2) T T tgt_mask)
    (hmm2 : OptT3WF (B * h2) T Tm memory_mask)
    (biasE maskE : Option Tensor3)
    (hB : 0 < B) (hT : 0 < T) (hTm : 0 < Tm) :
    T3WF B T D (SelfAttention.forward sa x bias mask4).1 ∧
    T3WF B T D (hta.forward x biasE maskE).1 ∧
    T3WF B T D (enc.forward x biasE maskE).1 ∧
    T3WF B T D (dl.forward tgt memory memo2 tgt_mask memory_mask) ∧
    T3WF B T D (dec.forward tgt memory memo2 embedding tgt_mask memory_mask) := by
  refine ⟨?_, ?_, ?_, ?_, ?_⟩
  · have hx1 : T3WF B T sa.hidden_dim x := by rw [hsad]; exact hx
    have hbias1 : OptT3WF B T sa.hidden_dim bias := by rw [hsad]; exact hbias
    have := SA_forward_WF hsa hx1 hbias1 hmask4 hB hT
    rw [hsad] at this
    exact this
  · have hx1 : T3WF B T hta.hidden_dim x := by rw [hhtad]; exact hx
    have := HTA_forward_WF hhta hx1 hB hT biasE maskE
    rw [hhtad] at this
    exact this
  · exact Enc_forward_WF henc hx hB hT biasE maskE
  · exact DecLayer_forward_WF hdl htgt hmem hmemo2 htm1 hmm1 hB hT hTm
  · exact Dec_forward_WF hdec htgt hmem hmemo2 hemb htm2 hmm2 hB hT hTm

/-- Witness for C8 with one-dimensional single-head instances of every
component on single-timestep inputs. -/
theorem C8_shape_invariance_witness :
    (SAWF (⟨1, 1, ⟨[[1]], [0]⟩, ⟨[[1]], [0]⟩, ⟨[[1]], [0]⟩, ⟨[[1]], [0]⟩⟩ : SelfAttention) ∧
      HTAWF (⟨1, 1, [1], 1, [⟨1, 1, ⟨[[1]], [0]⟩, ⟨[[1]], [0]⟩, ⟨[[1]], [0]⟩, ⟨[[1]], [0]⟩⟩], ⟨1, 1, ⟨[[1]], [0]⟩, ⟨[[1]], [0]⟩, ⟨[[1]], [0]⟩, ⟨[[1]], [0]⟩⟩, ⟨[[1, 1]], [0]⟩⟩ : HierarchicalTemporalAttention) ∧
      EncWF 1 (⟨[⟨⟨1, 1, [1], 1, [⟨1, 1, ⟨[[1]], [0]⟩, ⟨[[1]], [0]⟩, ⟨[[1]], [0]⟩, ⟨[[1]], [0]⟩⟩], ⟨1, 1, ⟨[[1]], [0]⟩, ⟨[[1]], [0]⟩, ⟨[[1]], [0]⟩, ⟨[[1]], [0]⟩⟩, ⟨[[1, 1]], [0]⟩⟩, ⟨[[1], [1], [1], [1]], [0, 0, 0, 0]⟩, ⟨[[1, 1, 1, 1]], [0]⟩, ⟨[1], [0]⟩, ⟨[1], [0]⟩⟩]⟩ : TransformerEncoder) ∧
      DecLayerWF 1 1 1 (⟨⟨1, 1, ⟨[[1]], [0]⟩, ⟨[[1]], [0]⟩, ⟨[[1]], [0]⟩, ⟨[[1]], [0]⟩⟩, ⟨[1], [0]⟩, ⟨1, 1, ⟨[[1]], [0]⟩, ⟨[[1]], [0]⟩, ⟨[[1]], [0]⟩, ⟨[[1]], [0]⟩⟩, ⟨[1], [0]⟩, ⟨[[1]], [0]⟩, ⟨[[1]], [0]⟩, ⟨[1], [0]⟩⟩ : TransformerDecoderLayer) ∧
      DecWF 1 1 1 (⟨1, [⟨⟨1, 1, ⟨[[1]], [0]⟩, ⟨[[1]], [0]⟩, ⟨[[1]], [0]⟩, ⟨[[1]], [0]⟩⟩, ⟨[1], [0]⟩, ⟨1, 1, ⟨[[1]], [0]⟩, ⟨[[1]], [0]⟩, ⟨[[1]], [0]⟩, ⟨[[1]], [0]⟩⟩, ⟨[1], [0]⟩, ⟨[[1]], [0]⟩, ⟨[[1]], [0]⟩, ⟨[1], [0]⟩⟩], ⟨[1], [0]⟩, ⟨[1], [0]⟩, ⟨[1], [0]⟩, ⟨[1], [0]⟩⟩ : TransformerDecoder) ∧
      T3WF 1 1 1 ([[[0]]] : Tensor3)) ∧
    (T3WF 1 1 1 (SelfAttention.forward ⟨1, 1, ⟨[[1]], [0]⟩, ⟨[[1]], [0]⟩, ⟨[[1]], [0]⟩, ⟨[[1]], [0]⟩⟩ [[[0]]] none none).1 ∧
     T3WF 1 1 1 (HierarchicalTemporalAttention.forward ⟨1, 1, [1], 1, [⟨1, 1, ⟨[[1]], [0]⟩, ⟨[[1]], [0]⟩, ⟨[[1]], [0]⟩, ⟨[[1]], [0]⟩⟩], ⟨1, 1, ⟨[[1]], [0]⟩, ⟨[[1]], [0]⟩, ⟨[[1]], [0]⟩, ⟨[[1]], [0]⟩⟩, ⟨[[1, 1]], [0]⟩⟩ [[[0]]] none none).1 ∧
     T3WF 1 1 1 (TransformerEncoder.forward ⟨[⟨⟨1, 1, [1], 1, [⟨1, 1, ⟨[[1]], [0]⟩, ⟨[[1]], [0]⟩, ⟨[[1]], [0]⟩, ⟨[[1]], [0]⟩⟩], ⟨1, 1, ⟨[[1]], [0]⟩, ⟨[[1]], [0]⟩, ⟨[[1]], [0]⟩, ⟨[[1]], [0]⟩⟩, ⟨[[1, 1]], [0]⟩⟩, ⟨[[1], [1], [1], [1]], [0, 0, 0, 0]⟩, ⟨[[1, 1, 1, 1]], [0]⟩, ⟨[1], [0]⟩, ⟨[1], [0]⟩⟩]⟩ [[[0]]] none none).1 ∧
     T3WF 1 1 1 (TransformerDecoderLayer.forward ⟨⟨1, 1, ⟨[[1]], [0]⟩, ⟨[[1]], [0]⟩, ⟨[[1]], [0]⟩, ⟨[[1]], [0]⟩⟩, ⟨[1], [0]⟩, ⟨1, 1, ⟨[[1]], [0]⟩, ⟨[[1]], [0]⟩, ⟨[[1]], [0]⟩, ⟨[[1]], [0]⟩⟩, ⟨[1], [0]⟩, ⟨[[1]], [0]⟩, ⟨[[1]], [0]⟩, ⟨[1], [0]⟩⟩ [[[0]]] [[[0]]] none none none) ∧
     T3WF 1 1 1 (TransformerDecoder.forward ⟨1, [⟨⟨1, 1, ⟨[[1]], [0]⟩, ⟨[[1]], [0]⟩, ⟨[[1]], [0]⟩, ⟨[[1]], [0]⟩⟩, ⟨[1], [0]⟩, ⟨1, 1, ⟨[[1]], [0]⟩, ⟨[[1]], [0]⟩, ⟨[[1]], [0]⟩, ⟨[[1]], [0]⟩⟩, ⟨[1], [0]⟩, ⟨[[1]], [0]⟩, ⟨[[1]], [0]⟩, ⟨[1], [0]⟩⟩], ⟨[1], [0]⟩, ⟨[1], [0]⟩, ⟨[1], [0]⟩, ⟨[1], [0]⟩⟩ [[[0]]] [[[0]]] none none none none)) :=
  ⟨⟨by decide, by decide,
    by
      intro l hl
      rw [List.mem_singleton.1 hl]
      decide,
    by decide, by decide, by decide⟩,
    @C8_shape_invariance 1 ⟨1, 1, ⟨[[1]], [0]⟩, ⟨[[1]], [0]⟩, ⟨[[1]], [0]⟩, ⟨[[1]], [0]⟩⟩ (by decide) (by decide) ⟨1, 1, [1], 1, [⟨1, 1, ⟨[[1]], [0]⟩, ⟨[[1]], [0]⟩, ⟨[[1]], [0]⟩, ⟨[[1]], [0]⟩⟩], ⟨1, 1, ⟨[[1]], [0]⟩, ⟨[[1]], [0]⟩, ⟨[[1]], [0]⟩, ⟨[[1]], [0]⟩⟩, ⟨[[1, 1]], [0]⟩⟩ (by decide)
      (by decide) ⟨[⟨⟨1, 1, [1], 1, [⟨1, 1, ⟨[[1]], [0]⟩, ⟨[[1]], [0]⟩, ⟨[[1]], [0]⟩, ⟨[[1]], [0]⟩⟩], ⟨1, 1, ⟨[[1]], [0]⟩, ⟨[[1]], [0]⟩, ⟨[[1]], [0]⟩, ⟨[[1]], [0]⟩⟩, ⟨[[1, 1]], [0]⟩⟩, ⟨[[1], [1], [1], [1]], [0, 0, 0, 0]⟩, ⟨[[1, 1, 1, 1]], [0]⟩, ⟨[1], [0]⟩, ⟨[1], [0]⟩⟩]⟩ (by
        intro l hl
        rw [List.mem_singleton.1 hl]
        decide) 1 1 1 1 ⟨⟨1, 1, ⟨[[1]], [0]⟩, ⟨[[1]], [0]⟩, ⟨[[1]], [0]⟩, ⟨[[1]], [0]⟩⟩, ⟨[1], [0]⟩, ⟨1, 1, ⟨[[1]], [0]⟩, ⟨[[1]], [0]⟩, ⟨[[1]], [0]⟩, ⟨[[1]], [0]⟩⟩, ⟨[1], [0]⟩, ⟨[[1]], [0]⟩, ⟨[[1]], [0]⟩, ⟨[1], [0]⟩⟩ (by decide) ⟨1, [⟨⟨1, 1, ⟨[[1]], [0]⟩, ⟨[[1]], [0]⟩, ⟨[[1]], [0]⟩, ⟨[[1]], [0]⟩⟩, ⟨[1], [0]⟩, ⟨1, 1, ⟨[[1]], [0]⟩, ⟨[[1]], [0]⟩, ⟨[[1]], [0]⟩, ⟨[[1]], [0]⟩⟩, ⟨[1], [0]⟩, ⟨[[1]], [0]⟩, ⟨[[1]], [0]⟩, ⟨[1], [0]⟩⟩], ⟨[1], [0]⟩, ⟨[1], [0]⟩, ⟨[1], [0]⟩, ⟨[1], [0]⟩⟩ (by decide)
      1 1 1 [[[0]]] [[[0]]] [[[0]]] (by decide) (by decide) (by decide) none trivial none
      trivial none none trivial trivial none none trivial trivial trivial
      trivial none none (by decide) (by decide) (by decide)⟩
